import Mathlib

/-!
Verification of the interface-generation engine of `hardhat-build`.

The engine (`src/index.ts`, class `InterfaceGenerator`, and its older variant
`src/buildInterface.ts`) is a directive-driven source-to-source generator:
it scans a Solidity contract file for `/// @custom:interface …` directive
comments (the older variant uses the `/// !interface …` marker), extracts
contract/function/event/error/variable declarations with regex and
brace-counting heuristics, and assembles a Solidity interface file.

This file gives a shallow embedding of that engine.  The TypeScript code
works over JavaScript strings with JavaScript regular expressions; the
embedding models strings as Lean `String` (a structure over `List Char`)
and each regular expression by an executable recognizer with the same
backtracking semantics (greedy/lazy quantifiers, ordered alternation,
leftmost match, `g`-flag scanning that resumes after each match).
File-system effects (`writeInterface`, module processing) are modelled by
explicit state passing over an association list of files.
-/

set_option maxRecDepth 100000

namespace HardhatBuild

/-! ## Character and string primitives

JavaScript semantics: `\s` (whitespace) as matched by JS regexes and
`String.prototype.trim`, `\w` word characters, `\d` digits.  All inputs
handled by the tool are ASCII, so the ASCII subset of the JS classes is
modelled. -/

def isJsWs (c : Char) : Bool :=
  c = ' ' ∨ c = '\t' ∨ c = '\n' ∨ c = '\r' ∨ c = Char.ofNat 11 ∨ c = Char.ofNat 12

def isWordChar (c : Char) : Bool :=
  c.isAlpha ∨ c.isDigit ∨ c = '_'

def braceOpen : Char := Char.ofNat 123

def braceClose : Char := Char.ofNat 125

/-- `JavaScript String.prototype.trim` on a character list. -/
def chTrim (l : List Char) : List Char :=
  ((l.dropWhile isJsWs).reverse.dropWhile isJsWs).reverse

/-- `text.trim()`. -/
def jsTrim (s : String) : String := ⟨chTrim s.data⟩

/-- Prefix test on character lists. -/
def chStarts : List Char → List Char → Bool
  | [], _ => true
  | _ :: _, [] => false
  | p :: ps, c :: cs => p = c ∧ chStarts ps cs

/-- `s.startsWith(p)`. -/
def strStartsWith (s p : String) : Bool := chStarts p.data s.data

/-- Substring search on character lists (`s.includes(sub)`). -/
def chContains (sub : List Char) : List Char → Bool
  | [] => chStarts sub []
  | c :: cs => chStarts sub (c :: cs) ∨ chContains sub cs

/-- `s.includes(sub)`. -/
def strContains (s sub : String) : Bool := chContains sub.data s.data

/-- Split a character list at a separator character
(`s.split(sep)` for a single-character separator: never empty,
keeps empty pieces). -/
def chSplitOn (sep : Char) : List Char → List (List Char)
  | [] => [[]]
  | c :: cs =>
    let rest := chSplitOn sep cs
    if c = sep then [] :: rest
    else match rest with
      | [] => [[c]]
      | r :: rs => (c :: r) :: rs

/-- `s.split(sep)` for a one-character separator string. -/
def strSplitOn (sep : Char) (s : String) : List String :=
  (chSplitOn sep s.data).map (fun l => ⟨l⟩)

/-- `parts.join(sep)`. -/
def strJoin (sep : String) : List String → String
  | [] => ""
  | [x] => x
  | x :: xs => x ++ sep ++ strJoin sep xs

/-- Membership in a JS `Set<string>` modelled as a list (`set.has(x)`). -/
def listHas (x : String) (l : List String) : Bool := l.contains x

/-- `set.add(x)` on the list model of a JS `Set` (insertion order kept,
no duplicates). -/
def setAdd (l : List String) (x : String) : List String :=
  if listHas x l then l else l ++ [x]

/-- `map.set(k, v)` on the association-list model of a JS `Map`
(insertion order kept, an existing key is updated in place). -/
def mapSet (m : List (String × String)) (k v : String) : List (String × String) :=
  match m with
  | [] => [(k, v)]
  | (k', v') :: rest => if k' = k then (k, v) :: rest else (k', v') :: mapSet rest k v

/-- `map.get(k)` on the association-list model of a JS `Map`. -/
def mapGet (m : List (String × String)) (k : String) : Option String :=
  match m with
  | [] => none
  | (k', v) :: rest => if k' = k then some v else mapGet rest k

/-- `map.get(k) || k`. -/
def mapGetD (m : List (String × String)) (k : String) : String :=
  (mapGet m k).getD k

/-- Count of newline characters in a list (for deriving 1-based line
numbers from match offsets: `content.substring(0, idx).split('\n').length`). -/
def countNl (l : List Char) : Nat := (l.filter (· = '\n')).length

/-! ## The `applyTypeReplacements` engine (src/index.ts lines 679–701)

For each `(original, replacement)` pair of the replace map, in insertion
order: if the whole current text equals `original` it is replaced wholly;
otherwise the JS replacement
`result.replace(new RegExp(`([\(,\s])orig([\s,\)\[])`, 'g'), `$1repl$2`)`
is applied.  A global regex replace scans left to right and resumes
after each match, so each replacement consumes its right boundary
character. -/

def isLeftBound (c : Char) : Bool := c = '(' ∨ c = ',' ∨ isJsWs c

def isRightBound (c : Char) : Bool := isJsWs c ∨ c = ',' ∨ c = ')' ∨ c = '['

/-- One global-regex replacement pass
`([\(,\s])orig([\s,\)\[]) ↦ $1 repl $2` over a character list.  On a
match the scan resumes after the consumed right boundary character,
exactly as `String.prototype.replace` with the `g` flag. -/
def replaceBoundedAux (orig repl : List Char) : Nat → List Char → List Char
  | _, [] => []
  | 0, l => l
  | fuel + 1, c :: cs =>
    match cs.drop orig.length with
    | r :: rest =>
      if isLeftBound c ∧ chStarts orig cs ∧ isRightBound r then
        (c :: repl ++ [r]) ++ replaceBoundedAux orig repl fuel rest
      else
        c :: replaceBoundedAux orig repl fuel cs
    | [] => c :: replaceBoundedAux orig repl fuel cs

/-- Every scan step consumes at least one character, so the input length
is enough fuel for the scan to run to completion. -/
def replaceBounded (orig repl l : List Char) : List Char :=
  replaceBoundedAux orig repl l.length l

/-- `applyTypeReplacements(text)` (src/index.ts lines 679–701): fold the
replace map, in insertion order, over the text. -/
def applyTypeReplacements (rp : List (String × String)) (text : String) : String :=
  if text = "" ∨ rp = [] then text
  else rp.foldl
    (fun result p =>
      if result = p.1 then p.2
      else ⟨replaceBounded p.1.data p.2.data result.data⟩)
    text

/-! ## Inheritance rewriting (src/index.ts lines 590–609) -/

/-- The inheritance clause computed by `generateInterface`: split the
header's base list on commas and trim, drop entries in the remove set,
substitute via the replace map, append all `is`-directive names, and
render `" is a, b"` iff the combined list is non-empty. -/
def processInheritance (removeS : List String) (rp : List (String × String))
    (isDirs : List String) (inh : String) : String :=
  let fromHeader :=
    if inh = "" then []
    else ((((strSplitOn ',' inh).map jsTrim).filter
            (fun c => !listHas c removeS)).map (fun c => mapGetD rp c))
  let all := fromHeader ++ isDirs
  if all.length > 0 then " is " ++ strJoin ", " all else ""

/-! ## Directive grammar (src/index.ts lines 58–253; src/buildInterface.ts lines 26–197)

Each `parseDirectiveContent` sub-grammar is an anchored JS regex; the
recognizers below accept exactly the language of the corresponding regex,
with the same backtracking order where it affects captures. -/

inductive DirType
  | buildD | importD | replaceD | removeD | excludeD | includeD
  | getterD | copyrightD | isD | moduleD
  deriving DecidableEq, Repr

structure InterfaceDirective where
  type : DirType
  content : String
  deriving DecidableEq, Repr

structure ModuleDirective where
  fromPath : String
  toPath : String
  flags : String
  deriving DecidableEq, Repr

/-- Match a literal string prefix, returning the remainder. -/
def eatLit : List Char → List Char → Option (List Char)
  | [], s => some s
  | _ :: _, [] => none
  | p :: ps, c :: cs => if p = c then eatLit ps cs else none

/-- `\s+` (greedy, at least one whitespace character). -/
def eatWs1 (s : List Char) : Option (List Char) :=
  match s with
  | c :: _ => if isJsWs c then some (s.dropWhile isJsWs) else none
  | [] => none

/-- `\s*` (greedy). -/
def eatWs0 (s : List Char) : List Char := s.dropWhile isJsWs

/-- `(\w+)` (greedy, at least one word character). -/
def eatWord1 (s : List Char) : Option (List Char × List Char) :=
  match s with
  | c :: _ =>
    if isWordChar c then some (s.takeWhile isWordChar, s.dropWhile isWordChar)
    else none
  | [] => none

/-- `"([^"]+)"`: a double-quoted, non-empty, quote-free capture; returns
the capture and the remainder after the closing quote. -/
def eatQuoted (s : List Char) : Option (List Char × List Char) :=
  match s with
  | '"' :: t =>
    let inner := t.takeWhile (· ≠ '"')
    match t.dropWhile (· ≠ '"') with
    | '"' :: rest => if inner ≠ [] then some (inner, rest) else none
    | _ => none
  | _ => none

/-- `^build\s+(?:"([^"]+)"|(\S+))$` (src/index.ts line 152): the quoted
alternative is tried first; the bare alternative is a maximal run of
non-whitespace reaching the end of the content. -/
def buildPathOfA (c : List Char) : Option String := do
  let r ← eatLit "build".data c
  let rest ← eatWs1 r
  (match eatQuoted rest with
   | some (inner, tail) => if tail = [] then some ⟨inner⟩ else none
   | none => none)
  <|>
  (if rest ≠ [] ∧ rest.all (fun ch => ¬ isJsWs ch) then some ⟨rest⟩ else none)

/-- `^build\s+(.+)$` (src/buildInterface.ts line 118).  The capture is
the remainder after the greedy `\s+`; if the remainder after `build` is
all whitespace of length ≥ 2, backtracking hands the last whitespace
character to `(.+)`. -/
def buildPathOfB (c : List Char) : Option String := do
  let r ← eatLit "build".data c
  let ws := r.takeWhile isJsWs
  let rest := r.dropWhile isJsWs
  if ws = [] then none
  else if rest ≠ [] then some ⟨rest⟩
  else match ws.getLast? with
    | some w => if ws.length ≥ 2 then some ⟨[w]⟩ else none
    | none => none

/-- `^module\s+"([^"]+)"\s+to\s+"([^"]+)"(.*)$` (src/index.ts line 160);
returns `(from, to, flags.trim())`. -/
def moduleMatchA (c : List Char) : Option (String × String × String) := do
  let r ← eatLit "module".data c
  let r ← eatWs1 r
  let (f, r) ← eatQuoted r
  let r ← eatWs1 r
  let r ← eatLit "to".data r
  let r ← eatWs1 r
  let (t, r) ← eatQuoted r
  some (⟨f⟩, ⟨t⟩, jsTrim ⟨r⟩)

/-- `^copyright\s+"([^"]+)"$` (both variants). -/
def copyrightMatch (c : List Char) : Option String := do
  let r ← eatLit "copyright".data c
  let r ← eatWs1 r
  let (q, rest) ← eatQuoted r
  if rest = [] then some ⟨q⟩ else none

/-- `(?:\s*;)?$`: the remainder is empty or optional whitespace followed
by a final semicolon. -/
def optSemiEnd (l : List Char) : Bool :=
  l = [] ∨ l.dropWhile isJsWs = [';']

/-- `^import\s+(?:"([^"]+)"|(\S+))(?:\s*;)?$` (src/index.ts line 174).
The bare alternative is the maximal non-whitespace run (greedy `\S+`
absorbs an immediately attached semicolon; a shorter run can never
succeed where the maximal one fails). -/
def importMatchA (c : List Char) : Option String := do
  let r ← eatLit "import".data c
  let rest ← eatWs1 r
  (match eatQuoted rest with
   | some (inner, tail) => if optSemiEnd tail then some ⟨inner⟩ else none
   | none => none)
  <|>
  (let tok := rest.takeWhile (fun ch => ¬ isJsWs ch)
   let tail := rest.dropWhile (fun ch => ¬ isJsWs ch)
   if tok ≠ [] ∧ optSemiEnd tail then some ⟨tok⟩ else none)

/-- `^import\s+"([^"]+)"(?:\s*;)?$` (src/buildInterface.ts line 129):
quoted paths only. -/
def importMatchB (c : List Char) : Option String := do
  let r ← eatLit "import".data c
  let rest ← eatWs1 r
  match eatQuoted rest with
  | some (inner, tail) => if optSemiEnd tail then some ⟨inner⟩ else none
  | none => none

/-- `^(\w+)\s+with\s+(\w+)$`: the pair grammar shared by the `replace`
directive (after its keyword) and by `storeDirective`'s re-parse. -/
def replacePairOf (c : List Char) : Option (String × String) := do
  let (a, r) ← eatWord1 c
  let r ← eatWs1 r
  let r ← eatLit "with".data r
  let r ← eatWs1 r
  let (b, rest) ← eatWord1 r
  if rest = [] then some (⟨a⟩, ⟨b⟩) else none

/-- `^replace\s+(\w+)\s+with\s+(\w+)$`. -/
def replaceMatch (c : List Char) : Option (String × String) := do
  let r ← eatLit "replace".data c
  let r ← eatWs1 r
  replacePairOf r

/-- `^kw\s+(.+)$`: keyword followed by a non-empty remainder capture
(greedy `\s+` first; all-whitespace remainders of length ≥ 2 hand their
last character to `(.+)` by backtracking). -/
def kwRestMatch (kw : String) (c : List Char) : Option String := do
  let r ← eatLit kw.data c
  let ws := r.takeWhile isJsWs
  let rest := r.dropWhile isJsWs
  if ws = [] then none
  else if rest ≠ [] then some ⟨rest⟩
  else match ws.getLast? with
    | some w => if ws.length ≥ 2 then some ⟨[w]⟩ else none
    | none => none

/-- `parseDirectiveContent` of src/index.ts (lines 150–211): ordered
sub-grammars, unrecognized content permissively classified as a
`build`-type directive.  The second component models the one side effect:
a well-formed `build` match immediately records the build path on the
generator; the permissive fallback does *not*. -/
def parseDirectiveContentA (content : String) : InterfaceDirective × Option String :=
  match buildPathOfA content.data with
  | some p => (⟨.buildD, p⟩, some p)
  | none =>
  match moduleMatchA content.data with
  | some (f, t, fl) =>
    (⟨.moduleD, f ++ " to " ++ t ++ (if fl ≠ "" then " " ++ fl else "")⟩, none)
  | none =>
  match copyrightMatch content.data with
  | some s => (⟨.copyrightD, s⟩, none)
  | none =>
  match importMatchA content.data with
  | some p => (⟨.importD, p⟩, none)
  | none =>
  match replaceMatch content.data with
  | some (a, b) => (⟨.replaceD, a ++ " with " ++ b⟩, none)
  | none =>
  match kwRestMatch "remove" content.data with
  | some s => (⟨.removeD, s⟩, none)
  | none =>
  match kwRestMatch "exclude" content.data with
  | some s => (⟨.excludeD, s⟩, none)
  | none =>
  match kwRestMatch "include" content.data with
  | some s => (⟨.includeD, s⟩, none)
  | none =>
  match kwRestMatch "getter" content.data with
  | some s => (⟨.getterD, s⟩, none)
  | none =>
  match kwRestMatch "is" content.data with
  | some s => (⟨.isD, s⟩, none)
  | none => (⟨.buildD, content⟩, none)

/-- `parseDirectiveContent` of src/buildInterface.ts (lines 117–165):
same ordered grammar without `module`, with the loose `build` and the
quoted-only `import`. -/
def parseDirectiveContentB (content : String) : InterfaceDirective × Option String :=
  match buildPathOfB content.data with
  | some p => (⟨.buildD, p⟩, some p)
  | none =>
  match copyrightMatch content.data with
  | some s => (⟨.copyrightD, s⟩, none)
  | none =>
  match importMatchB content.data with
  | some p => (⟨.importD, p⟩, none)
  | none =>
  match replaceMatch content.data with
  | some (a, b) => (⟨.replaceD, a ++ " with " ++ b⟩, none)
  | none =>
  match kwRestMatch "remove" content.data with
  | some s => (⟨.removeD, s⟩, none)
  | none =>
  match kwRestMatch "exclude" content.data with
  | some s => (⟨.excludeD, s⟩, none)
  | none =>
  match kwRestMatch "include" content.data with
  | some s => (⟨.includeD, s⟩, none)
  | none =>
  match kwRestMatch "getter" content.data with
  | some s => (⟨.getterD, s⟩, none)
  | none =>
  match kwRestMatch "is" content.data with
  | some s => (⟨.isD, s⟩, none)
  | none => (⟨.buildD, content⟩, none)

/-! ## Generator state and directive accumulation -/

/-- The per-file accumulated directive state of an `InterfaceGenerator`
instance, together with the raw content and its line split. -/
structure GenState where
  content : String
  lines : List String
  buildPath : String := ""
  importDirectives : List String := []
  replaceDirectives : List (String × String) := []
  removeDirectives : List String := []
  excludeDirectives : List String := []
  includeDirectives : List String := []
  getterDirectives : List String := []
  copyrightNotice : String := ""
  isDirectives : List String := []
  moduleDirectives : List ModuleDirective := []
  deriving DecidableEq, Repr

/-- `s.split(/\s+/)`: split on maximal whitespace runs; a leading or
trailing run contributes an empty piece, as in JavaScript. -/
def splitWsGo : Bool → List Char → List Char → List String
  | _, acc, [] => [⟨acc.reverse⟩]
  | inRun, acc, c :: cs =>
    if isJsWs c then
      if inRun then splitWsGo true acc cs
      else ⟨acc.reverse⟩ :: splitWsGo true [] cs
    else splitWsGo false (c :: acc) cs

def splitWsJS (s : String) : List String :=
  splitWsGo false [] s.data

/-- `^(.+?)(\s+.+)?$` applied after the lazy `to`-split: find the lazily
shortest `to` capture; the optional greedy tail group is tried first at
each split, and its capture is trimmed into the flag string. -/
def moduleToSplit : List Char → List Char → Option (String × String)
  | _, [] => none
  | acc, c :: cs =>
    let acc := c :: acc
    let rest := cs
    if (match rest with
        | w :: _ :: _ => isJsWs w
        | _ => false) then
      some (⟨acc.reverse⟩, jsTrim ⟨rest⟩)
    else if rest = [] then
      some (⟨acc.reverse⟩, "")
    else
      moduleToSplit acc cs

/-- Try `\s+to\s+` followed by the `to`/flags tail at one split point of
the lazy `from` capture. -/
def moduleTailAt (cs : List Char) : Option (String × String) :=
  let ws := cs.takeWhile isJsWs
  let r1 := cs.dropWhile isJsWs
  if ws = [] then none
  else
    match eatLit "to".data r1 with
    | none => none
    | some r2 =>
      let ws2 := r2.takeWhile isJsWs
      let r3 := r2.dropWhile isJsWs
      if ws2 = [] then none
      else
        match moduleToSplit [] r3 with
        | some (t, fl) => some (t, fl)
        | none =>
          -- all-whitespace tail: backtracking can still hand the last
          -- whitespace character to the lazy `to` capture
          if r3 = [] ∧ ws2.length ≥ 2 then
            match ws2.getLast? with
            | some w => some (⟨[w]⟩, "")
            | none => none
          else none

/-- `^(.+?)\s+to\s+(.+?)(\s+.+)?$` (src/index.ts line 244): the lazy
`from` capture grows until `\s+to\s+` and the tail match. -/
def moduleFromSplit : List Char → List Char → Option (String × String × String)
  | _, [] => none
  | acc, c :: cs =>
    let acc' := c :: acc
    match moduleTailAt cs with
    | some (t, fl) => some (⟨acc'.reverse⟩, t, fl)
    | none => moduleFromSplit acc' cs

/-- `storeDirective` (src/index.ts lines 213–253): route one parsed
directive into the accumulated state.  `build` has no case here (its
side effect already happened in `parseDirectiveContent`). -/
def storeDirective (st : GenState) (d : InterfaceDirective) : GenState :=
  match d.type with
  | .copyrightD => { st with copyrightNotice := d.content }
  | .importD => { st with importDirectives := st.importDirectives ++ [d.content] }
  | .replaceD =>
    match replacePairOf d.content.data with
    | some (a, b) => { st with replaceDirectives := mapSet st.replaceDirectives a b }
    | none => st
  | .removeD =>
    { st with removeDirectives :=
        (splitWsJS d.content).foldl setAdd st.removeDirectives }
  | .excludeD =>
    { st with excludeDirectives :=
        (splitWsJS d.content).foldl setAdd st.excludeDirectives }
  | .includeD =>
    { st with includeDirectives :=
        (splitWsJS d.content).foldl setAdd st.includeDirectives }
  | .getterD =>
    { st with getterDirectives :=
        (splitWsJS d.content).foldl setAdd st.getterDirectives }
  | .isD =>
    -- `content.split(/\s*,\s*/).forEach(item => push(item.trim()))`:
    -- equal to splitting on commas and trimming every piece
    { st with isDirectives :=
        st.isDirectives ++ (strSplitOn ',' d.content).map jsTrim }
  | .moduleD =>
    match moduleFromSplit [] d.content.data with
    | some (f, t, fl) =>
      { st with moduleDirectives := st.moduleDirectives ++ [⟨f, t, fl⟩] }
    | none => st
  | .buildD => st

/-- The unanchored line regex `marker\s+(.+)` (src/index.ts line 134 with
marker `/// @custom:interface`, src/buildInterface.ts line 101 with
marker `/// !interface`): leftmost match, greedy `\s+`, capture to the
end of the line. -/
def directiveCaptureGo (marker : String) : List Char → Option String
  | [] => none
  | l@(_ :: t) =>
    ((match eatLit marker.data l with
      | some r =>
        let ws := r.takeWhile isJsWs
        let rest := r.dropWhile isJsWs
        if ws = [] then none
        else if rest ≠ [] then some ⟨rest⟩
        else match ws.getLast? with
          | some w => if ws.length ≥ 2 then some ⟨[w]⟩ else none
          | none => none
      | none => none : Option String)).orElse (fun _ => directiveCaptureGo marker t)

def directiveCapture (marker : String) (line : String) : Option String :=
  directiveCaptureGo marker line.data

/-- One line of `parseDirectives` (src/index.ts lines 132–148):
parse the trimmed capture and store the directive. -/
def applyDirectiveLine (pdc : String → InterfaceDirective × Option String)
    (marker : String) (st : GenState) (line : String) : GenState :=
  match directiveCapture marker line with
  | none => st
  | some cap =>
    let (d, bp) := pdc (jsTrim cap)
    let st := match bp with
      | some p => { st with buildPath := p }
      | none => st
    storeDirective st d

/-- The `InterfaceGenerator` constructor (modulo the file read): split
the content into lines and accumulate every directive line. -/
def mkGenState (pdc : String → InterfaceDirective × Option String)
    (marker : String) (content : String) : GenState :=
  let lines := strSplitOn '\n' content
  (lines.foldl (applyDirectiveLine pdc marker)
    { content := content, lines := lines })

def markerA : String := "/// @custom:interface"

def markerB : String := "/// !interface"

/-- Constructor of the `@custom:interface` generator (src/index.ts). -/
def mkGenStateA (content : String) : GenState :=
  mkGenState parseDirectiveContentA markerA content

/-- Constructor of the `!interface` generator (src/buildInterface.ts). -/
def mkGenStateB (content : String) : GenState :=
  mkGenState parseDirectiveContentB markerB content

/-! ## Documentation-comment association
(`extractNatspecForLine`, src/index.ts lines 255–315; identical in
src/buildInterface.ts up to the directive marker). -/

/-- `this.lines[currentLine]` (always in range on reachable inputs;
the default keeps the model total). -/
def lineAt (lines : List String) (k : Nat) : String := lines.getD k ""

/-- The backwards scan.  The fuel argument `k` stands for
`currentLine + 1`, so `k = 0` means the scan has moved above the first
line (`currentLine < 0` in the source) and stops. -/
def extractNatspecLoop (marker : String) (lines : List String) :
    Nat → Bool → List String → List String
  | 0, _, acc => acc
  | k + 1, inBlock, acc =>
    let line := jsTrim (lineAt lines k)
    if strStartsWith line marker then
      extractNatspecLoop marker lines k inBlock acc
    else if strContains line "*/" then
      extractNatspecLoop marker lines k true (line :: acc)
    else if inBlock then
      if strStartsWith line "*" ∨ strStartsWith line "/**" then
        if strStartsWith line "/**" then line :: acc
        else extractNatspecLoop marker lines k true (line :: acc)
      else if line = "" then
        extractNatspecLoop marker lines k true (line :: acc)
      else acc
    else if strStartsWith line "/// " then
      extractNatspecLoop marker lines k false (line :: acc)
    else if line = "" ∨ (strStartsWith line "//" ∧ ¬ strStartsWith line "///") then
      extractNatspecLoop marker lines k inBlock acc
    else acc

/-- `extractNatspecForLine(lineNumber)`: scan upward starting at
`lineNumber - 2` (0-based), join the collected lines and trim.  (For
`lineNumber ≤ 1` the JS scan starts below index 0 and collects nothing;
the truncated `Nat` subtraction models this.) -/
def extractNatspecForLine (marker : String) (lines : List String) (lineNumber : Nat) : String :=
  jsTrim (strJoin "\n" (extractNatspecLoop marker lines (lineNumber - 1) false []))

/-! ## Contract header (`parseContract`, src/index.ts lines 317–338) -/

structure ParsedContract where
  name : String
  natspec : String
  inheritance : String
  deriving DecidableEq, Repr

/-- `contract\s+(\w+)(?:\s+is\s+([^{]+))?\s*\{` at one position; the
greedy `is` group is tried first and its `[^{]+` capture extends up to
the opening brace. -/
def matchContractCore (s : List Char) : Option (String × String) := do
  let r ← eatLit "contract".data s
  let r ← eatWs1 r
  let (name, r) ← eatWord1 r
  (do
    let r1 ← eatWs1 r
    let r2 ← eatLit "is".data r1
    let r3 ← eatWs1 r2
    let body := r3.takeWhile (· ≠ braceOpen)
    let rest := r3.dropWhile (· ≠ braceOpen)
    if body ≠ [] then
      match rest with
      | b :: _ => if b = braceOpen then some (⟨name⟩, ⟨body⟩) else none
      | [] => none
    else none)
  <|>
  (match eatWs0 r with
   | b :: _ => if b = braceOpen then some (⟨name⟩, "") else none
   | [] => none)

/-- `(?:abstract\s+)?` prefix: the `abstract` branch is tried first. -/
def matchContractAt (s : List Char) : Option (String × String) :=
  (do
    let r ← eatLit "abstract".data s
    let r ← eatWs1 r
    matchContractCore r)
  <|> matchContractCore s

/-- Leftmost search of `this.content.match(...)`. -/
def searchContract : List Char → Option (String × String)
  | [] => none
  | l@(_ :: t) => (matchContractAt l).orElse (fun _ => searchContract t)

/-- `parseContract` (src/index.ts lines 317–338).  Note, faithful to the
source: the 0-based `findIndex` result is passed directly as the
(1-based) `lineNumber` argument of `extractNatspecForLine`, and a JS
`findIndex` miss (`-1`) makes the scan collect nothing. -/
def parseContract (marker : String) (content : String) (lines : List String) :
    Option ParsedContract :=
  match searchContract content.data with
  | none => none
  | some (name, inh) =>
    let natspec :=
      match lines.findIdx? (fun line => strContains line ("contract " ++ name)) with
      | some i => extractNatspecForLine marker lines i
      | none => ""
    some ⟨name, natspec, inh⟩

/-! ## Functions (`parseFunction`/`parseFunctions`,
src/index.ts lines 340–407) -/

inductive Visibility
  | ext | pub | intern | priv
  deriving DecidableEq, Repr

inductive Mutability
  | pure | view | payable | nonpayable
  deriving DecidableEq, Repr

def visOfString (s : String) : Visibility :=
  if s = "external" then .ext
  else if s = "internal" then .intern
  else if s = "private" then .priv
  else .pub

def mutOfString (s : String) : Mutability :=
  if s = "view" then .view
  else if s = "pure" then .pure
  else if s = "payable" then .payable
  else .nonpayable

structure ParsedFunction where
  name : String
  visibility : Visibility
  stateMutability : Mutability
  parameters : String
  returnType : String
  modifiers : List String
  fullSignature : String
  natspec : String
  lineNumber : Nat
  deriving DecidableEq, Repr

structure FuncMatchRaw where
  name : String
  params : String
  visibility : Option String
  mutab : Option String
  returnType : Option String
  deriving DecidableEq, Repr

/-- The character class `[\w\s,()]` of the function regex. -/
def funcClassChar (c : Char) : Bool :=
  isWordChar c ∨ isJsWs c ∨ c = ',' ∨ c = '(' ∨ c = ')'

/-- The continuation `(?:returns\s*\(([^)]*)\))?\s*\{` tried at one
position after the lazy class star; the `returns` group first. -/
def funcTailCont (s : List Char) : Option (Option String) :=
  ((do
    let r ← eatLit "returns".data s
    let r := eatWs0 r
    let r ← (match r with | '(' :: t => some t | _ => none)
    let ret := r.takeWhile (· ≠ ')')
    let rest := r.dropWhile (· ≠ ')')
    let rest ← (match rest with | ')' :: t => some t | _ => none)
    match eatWs0 rest with
    | b :: _ => if b = braceOpen then some (some (⟨ret⟩ : String)) else none
    | [] => none) : Option (Option String))
  <|>
  (match eatWs0 s with
   | b :: _ => if b = braceOpen then some none else none
   | [] => none)

/-- The lazy `[\w\s,()]*?`: try the continuation at the current position
first, then grow by one class character. -/
def funcLazy : List Char → Option (Option String)
  | [] => funcTailCont []
  | l@(c :: cs) =>
    match funcTailCont l with
    | some r => some r
    | none => if funcClassChar c then funcLazy cs else none

/-- Ordered alternation for an optional group of literal alternatives:
try each alternative with the continuation, then the empty branch
(JS `(a|b|…)?` priority). -/
def tryAltsThenEmpty {α : Type} (alts : List String) (s : List Char)
    (k : Option String → List Char → Option α) : Option α :=
  match alts with
  | [] => k none s
  | a :: rest =>
    match eatLit a.data s with
    | some r => (k (some a) r).orElse (fun _ => tryAltsThenEmpty rest s k)
    | none => tryAltsThenEmpty rest s k

/-- The full function-header regex (src/index.ts line 385)
`function\s+(\w+)\s*\(([^)]*)\)\s*(external|public|internal|private)?\s*(view|pure|payable)?\s*[\w\s,()]*?(?:returns\s*\(([^)]*)\))?\s*\{`
at one position. -/
def matchFuncAt (s : List Char) : Option FuncMatchRaw := do
  let r ← eatLit "function".data s
  let r ← eatWs1 r
  let (name, r) ← eatWord1 r
  let r := eatWs0 r
  let r ← (match r with | '(' :: t => some t | _ => none)
  let params := r.takeWhile (· ≠ ')')
  let rest := r.dropWhile (· ≠ ')')
  let rest ← (match rest with | ')' :: t => some t | _ => none)
  let rest := eatWs0 rest
  tryAltsThenEmpty ["external", "public", "internal", "private"] rest (fun vis r1 =>
    let r1 := eatWs0 r1
    tryAltsThenEmpty ["view", "pure", "payable"] r1 (fun mu r2 =>
      let r2 := eatWs0 r2
      match funcLazy r2 with
      | some ret => some ⟨⟨name⟩, ⟨params⟩, vis, mu, ret⟩
      | none => none))

/-- Leftmost search of `funcDeclaration.match(...)`. -/
def searchFunc : List Char → Option FuncMatchRaw
  | [] => none
  | l@(_ :: t) => (matchFuncAt l).orElse (fun _ => searchFunc t)

/-- The per-line brace counter of `parseFunction` (src/index.ts lines
367–376): stop at the first `{` of the line, decrement on `}`. -/
def scanLineBraces : List Char → Int → Bool → Int × Bool
  | [], bc, found => (bc, found)
  | c :: cs, bc, found =>
    if c = braceOpen then (bc + 1, true)
    else if c = braceClose then scanLineBraces cs (bc - 1) found
    else scanLineBraces cs bc found

/-- Multi-line aggregation of a function declaration: trimmed lines are
space-joined until the brace counter first exceeds zero after an opening
brace. -/
def aggregateFunc : List String → Int → Bool → String → String
  | [], _, _, acc => acc
  | l :: rest, bc, found, acc =>
    let t := jsTrim l
    let acc' := acc ++ " " ++ t
    let (bc', found') := scanLineBraces t.data bc found
    if found' ∧ bc' > 0 then acc' else aggregateFunc rest bc' found' acc'

/-- `parseFunction(lines, startIndex)` (src/index.ts lines 357–407).
`startIndex` is 0-based; the natspec is looked up for the 1-based line
number `startIndex + 1`. -/
def parseFunction (marker : String) (lines : List String) (startIndex : Nat) :
    Option ParsedFunction :=
  let decl := aggregateFunc (lines.drop startIndex) 0 false ""
  match searchFunc decl.data with
  | none => none
  | some m =>
    some {
      name := m.name
      visibility := visOfString (m.visibility.getD "public")
      stateMutability := mutOfString (m.mutab.getD "nonpayable")
      parameters := jsTrim m.params
      returnType := jsTrim (m.returnType.getD "")
      modifiers := []
      fullSignature := decl
      natspec := extractNatspecForLine marker lines (startIndex + 1)
      lineNumber := startIndex + 1 }

/-- `parseFunctions` (src/index.ts lines 340–355): every line whose trim
starts with `function ` triggers a parse; failed parses are silently
dropped. -/
def parseFunctionsGo (marker : String) (lines : List String) :
    Nat → List String → List ParsedFunction
  | _, [] => []
  | i, l :: rest =>
    if strStartsWith (jsTrim l) "function " then
      match parseFunction marker lines i with
      | some f => f :: parseFunctionsGo marker lines (i + 1) rest
      | none => parseFunctionsGo marker lines (i + 1) rest
    else parseFunctionsGo marker lines (i + 1) rest

def parseFunctions (marker : String) (lines : List String) : List ParsedFunction :=
  parseFunctionsGo marker lines 0 lines

/-! ## Events and errors (src/index.ts lines 409–455) -/

structure ParsedEvent where
  name : String
  parameters : String
  fullSignature : String
  natspec : String
  lineNumber : Nat
  deriving DecidableEq, Repr

/-- `kw\s+(\w+)\s*\(([^)]*)\)\s*;` at one position; returns name,
parameters and the length of the whole match. -/
def matchSigAt (kw : String) (s : List Char) : Option (String × String × Nat) := do
  let r ← eatLit kw.data s
  let r ← eatWs1 r
  let (name, r) ← eatWord1 r
  let r := eatWs0 r
  let r ← (match r with | '(' :: t => some t | _ => none)
  let params := r.takeWhile (· ≠ ')')
  let rest := r.dropWhile (· ≠ ')')
  let rest ← (match rest with | ')' :: t => some t | _ => none)
  match eatWs0 rest with
  | ';' :: tail => some (⟨name⟩, ⟨params⟩, s.length - tail.length)
  | _ => none

/-- The `g`-flag scan of `eventRegex.exec`/`errorRegex.exec`: resume
after each match; `nl` counts newlines before the current position, so a
match at this position is on 1-based line `nl + 1`. -/
def scanSigs (kw : String) : Nat → Nat → List Char → List (String × String × String × Nat)
  | 0, _, _ => []
  | _, _, [] => []
  | fuel + 1, nl, l@(c :: t) =>
    match matchSigAt kw l with
    | some (name, params, len) =>
      (name, params, ⟨l.take len⟩, nl + 1) ::
        scanSigs kw fuel (nl + countNl (l.take len)) (l.drop len)
    | none => scanSigs kw fuel (nl + (if c = '\n' then 1 else 0)) t

/-- `parseEvents` (src/index.ts lines 409–431). -/
def parseEvents (marker : String) (content : String) (lines : List String) :
    List ParsedEvent :=
  (scanSigs "event" (content.data.length + 1) 0 content.data).map
    (fun x => ⟨x.1, x.2.1, x.2.2.1,
      extractNatspecForLine marker lines x.2.2.2, x.2.2.2⟩)

/-- `parseErrors` (src/index.ts lines 433–455); the record shape is the
same as for events. -/
def parseErrors (marker : String) (content : String) (lines : List String) :
    List ParsedEvent :=
  (scanSigs "error" (content.data.length + 1) 0 content.data).map
    (fun x => ⟨x.1, x.2.1, x.2.2.1,
      extractNatspecForLine marker lines x.2.2.2, x.2.2.2⟩)

/-! ## State variables (`parseVariables`, src/index.ts lines 457–492 and
src/buildInterface.ts lines 401–435) -/

inductive VarVisibility
  | pub | intern | priv
  deriving DecidableEq, Repr

def varVisOfString (s : String) : VarVisibility :=
  if s = "public" then .pub
  else if s = "private" then .priv
  else .intern

structure ParsedVariable where
  name : String
  type : String
  visibility : VarVisibility
  isConstant : Bool
  fullSignature : String
  natspec : String
  lineNumber : Nat
  deriving DecidableEq, Repr

/-- Type alternative `p\d*` (for `uint\d*`, `int\d*`, `bytes\d*`):
maximal digits, deterministic since `\s+` follows. -/
def tryPrefixDigits {α : Type} (p : String) (s : List Char)
    (k : String → List Char → Option α) : Option α :=
  match eatLit p.data s with
  | some r => k (p ++ ⟨r.takeWhile Char.isDigit⟩) (r.dropWhile Char.isDigit)
  | none => none

/-- Literal type alternative. -/
def tryLitType {α : Type} (p : String) (s : List Char)
    (k : String → List Char → Option α) : Option α :=
  match eatLit p.data s with
  | some r => k p r
  | none => none

/-- `mapping\([^)]+\)`: greedy non-`)` body, then the closing paren. -/
def tryMappingType {α : Type} (s : List Char)
    (k : String → List Char → Option α) : Option α :=
  match eatLit "mapping(".data s with
  | some r =>
    let inner := r.takeWhile (· ≠ ')')
    match r.dropWhile (· ≠ ')') with
    | ')' :: t => if inner ≠ [] then k ("mapping(" ++ ⟨inner⟩ ++ ")") t else none
    | _ => none
  | none => none

/-- Ordered type alternation of src/index.ts line 459:
`(uint\d*|int\d*|string|address|bool|bytes\d*|mapping\([^)]+\))`. -/
def typeAltsA {α : Type} (s : List Char) (k : String → List Char → Option α) : Option α :=
  (tryPrefixDigits "uint" s k).orElse fun _ =>
  (tryPrefixDigits "int" s k).orElse fun _ =>
  (tryLitType "string" s k).orElse fun _ =>
  (tryLitType "address" s k).orElse fun _ =>
  (tryLitType "bool" s k).orElse fun _ =>
  (tryPrefixDigits "bytes" s k).orElse fun _ =>
  tryMappingType s k

/-- Ordered type alternation of src/buildInterface.ts line 402:
`(uint256|string|address|bool|bytes32|mapping\([^)]+\))`. -/
def typeAltsB {α : Type} (s : List Char) (k : String → List Char → Option α) : Option α :=
  (tryLitType "uint256" s k).orElse fun _ =>
  (tryLitType "string" s k).orElse fun _ =>
  (tryLitType "address" s k).orElse fun _ =>
  (tryLitType "bool" s k).orElse fun _ =>
  (tryLitType "bytes32" s k).orElse fun _ =>
  tryMappingType s k

/-- The tail `\s+(public|internal|private)?\s*(constant|immutable)?\s*(\w+)\s*(?:=|;)`
of the src/index.ts variable regex, after the type.  Returns
`(visibility?, modifier?, name, remainder after the terminator)`. -/
def varTailA (s0 : List Char) :
    Option (Option String × Option String × String × List Char) := do
  let r ← eatWs1 s0
  tryAltsThenEmpty ["public", "internal", "private"] r (fun vis r1 =>
    let r1 := eatWs0 r1
    tryAltsThenEmpty ["constant", "immutable"] r1 (fun md r2 =>
      let r2 := eatWs0 r2
      match eatWord1 r2 with
      | some (name, r3) =>
        (match eatWs0 r3 with
         | '=' :: tail => some (vis, md, (⟨name⟩ : String), tail)
         | ';' :: tail => some (vis, md, (⟨name⟩ : String), tail)
         | _ => none)
      | none => none))

/-- The tail `\s+(public|internal|private)?\s*(constant)?\s+(\w+)` of the
src/buildInterface.ts variable regex.  The `\s*` before `(constant)?`
must leave at least one whitespace character for the mandatory `\s+`
when the modifier is absent, which JS backtracking resolves as: try
`constant` right after the whitespace run, else require a non-empty run
followed directly by the name. -/
def varTailB (s0 : List Char) :
    Option (Option String × Option String × String × List Char) := do
  let r ← eatWs1 s0
  tryAltsThenEmpty ["public", "internal", "private"] r (fun vis r1 =>
    let ws := r1.takeWhile isJsWs
    let t := r1.dropWhile isJsWs
    ((do
      let r2 ← eatLit "constant".data t
      let r3 ← eatWs1 r2
      match eatWord1 r3 with
      | some (name, r4) => some (vis, some "constant", (⟨name⟩ : String), r4)
      | none => none) : Option (Option String × Option String × String × List Char))
    <|>
    (if ws ≠ [] then
      match eatWord1 t with
      | some (name, r4) => some (vis, none, (⟨name⟩ : String), r4)
      | none => none
     else none))

/-- `content.lastIndexOf('\n', idx) + 1`: start of the line containing
position `idx`. -/
def lineStartAt (content : List Char) (idx : Nat) : Nat :=
  let pre := content.take (idx + 1)
  let tailLen := (pre.reverse.takeWhile (· ≠ '\n')).length
  if tailLen = pre.length then 0 else pre.length - tailLen

/-- The enclosing source line of a match, as computed by the source:
`content.substring(lineStart, content.indexOf('\n', idx))`.  When there
is no later newline, JS `indexOf` yields `-1` and `substring` clamps and
swaps its arguments, producing `content.substring(0, lineStart)`. -/
def lineOfIndex (content : List Char) (idx : Nat) : String :=
  let ls := lineStartAt content idx
  match (content.drop idx).findIdx? (· = '\n') with
  | some j => ⟨(content.take (idx + j)).drop ls⟩
  | none => ⟨content.take ls⟩

/-- The `g`-flag scan of the variable regex: `tail` is the per-variant
tail matcher, `pos` the absolute position, `nl` the newline count before
`pos`. -/
def scanVars (tyAlts : {α : Type} → List Char → (String → List Char → Option α) → Option α)
    (tail : List Char → Option (Option String × Option String × String × List Char)) :
    Nat → Nat → Nat → List Char →
      List (String × Option String × Option String × String × String × Nat × Nat)
  | 0, _, _, _ => []
  | _, _, _, [] => []
  | fuel + 1, pos, nl, l@(c :: t) =>
    match tyAlts l (fun ty r =>
        match tail r with
        | some (vis, md, name, rest) => some (ty, vis, md, name, rest)
        | none => none) with
    | some (ty, vis, md, name, rest) =>
      let len := l.length - rest.length
      (ty, vis, md, name, ⟨l.take len⟩, pos, nl + 1) ::
        scanVars tyAlts tail fuel (pos + len) (nl + countNl (l.take len)) (l.drop len)
    | none => scanVars tyAlts tail fuel (pos + 1) (nl + (if c = '\n' then 1 else 0)) t

/-- `parseVariables` shared shape: scan, then drop matches whose
enclosing line contains `function` or `(`, then build records.
`constTest` interprets the captured modifier (src/index.ts accepts
`constant` and `immutable`; src/buildInterface.ts coerces the capture
to a boolean). -/
def parseVariablesWith
    (tyAlts : {α : Type} → List Char → (String → List Char → Option α) → Option α)
    (tail : List Char → Option (Option String × Option String × String × List Char))
    (constTest : Option String → Bool)
    (marker : String) (content : String) (lines : List String) : List ParsedVariable :=
  (scanVars tyAlts tail (content.data.length + 1) 0 0 content.data).filterMap
    (fun x =>
      let ty := x.1
      let vis := x.2.1
      let md := x.2.2.1
      let name := x.2.2.2.1
      let sig := x.2.2.2.2.1
      let pos := x.2.2.2.2.2.1
      let lineNumber := x.2.2.2.2.2.2
      let line := jsTrim (lineOfIndex content.data pos)
      if strContains line "function" ∨ strContains line "(" then none
      else some {
        name := name
        type := ty
        visibility := varVisOfString (vis.getD "internal")
        isConstant := constTest md
        fullSignature := sig
        natspec := extractNatspecForLine marker lines lineNumber
        lineNumber := lineNumber })

/-- `parseVariables` of src/index.ts (lines 457–492):
`isConstant: modifier === 'constant' || modifier === 'immutable'`. -/
def parseVariablesA (content : String) (lines : List String) : List ParsedVariable :=
  parseVariablesWith (@typeAltsA) varTailA
    (fun md => md = some "constant" ∨ md = some "immutable") markerA content lines

/-- `parseVariables` of src/buildInterface.ts (lines 401–435):
`isConstant: !!constant`. -/
def parseVariablesB (content : String) (lines : List String) : List ParsedVariable :=
  parseVariablesWith (@typeAltsB) varTailB (fun md => md.isSome) markerB content lines

/-! ## Inclusion policy (src/index.ts lines 494–511) -/

/-- `shouldIncludeFunction`: the include set overrides everything, then
the exclude set, then only `external`/`public` visibility by default. -/
def shouldIncludeFunction (st : GenState) (f : ParsedFunction) : Bool :=
  if listHas f.name st.includeDirectives then true
  else if listHas f.name st.excludeDirectives then false
  else match f.visibility with
    | .ext => true
    | .pub => true
    | _ => false

/-- `shouldIncludeEvent`: not named in the exclude set. -/
def shouldIncludeEvent (st : GenState) (e : ParsedEvent) : Bool :=
  ¬ listHas e.name st.excludeDirectives

/-- `shouldIncludeError`: not named in the exclude set. -/
def shouldIncludeError (st : GenState) (e : ParsedEvent) : Bool :=
  ¬ listHas e.name st.excludeDirectives

/-! ## Natspec formatting and getter synthesis
(src/index.ts lines 513–558; src/buildInterface.ts lines 456–495) -/

/-- `formatNatspec(natspec, indent)`: trim each line, drop empty lines,
prepend the indent, re-join. -/
def formatNatspec (natspec indent : String) : String :=
  if natspec = "" then ""
  else strJoin "\n"
    ((((strSplitOn '\n' natspec).map jsTrim).filter
        (fun l => l.data.length > 0)).map (fun l => indent ++ l))

/-- A variable generates a getter iff it is named in the getter set, or
it is public and not named in the exclude set. -/
def getterEligible (st : GenState) (v : ParsedVariable) : Bool :=
  listHas v.name st.getterDirectives ∨
    (v.visibility = .pub ∧ ¬ listHas v.name st.excludeDirectives)

/-- `\s*=>` inside the mapping-getter regex: maximal whitespace run, then
the literal arrow, then the value part; on value failure the lazy key
keeps growing (handled by the caller). -/
def mapValSplit : List Char → List Char → Option String
  | _, [] => none
  | acc, c :: cs =>
    let acc' := c :: acc
    match cs with
    | ')' :: _ => some ⟨acc'.reverse⟩
    | _ => mapValSplit acc' cs

/-- The value part `\s*(.+?)\)` after the arrow: the greedy `\s*` is
tried from its maximal width downward. -/
def mappingValueGo (r : List Char) : Nat → Option String
  | 0 => mapValSplit [] r
  | j + 1 =>
    match mapValSplit [] (r.drop (j + 1)) with
    | some v => some v
    | none => mappingValueGo r j

def mappingValue (r : List Char) : Option String :=
  mappingValueGo r (r.takeWhile isJsWs).length

/-- `mapping\((.+?)\s*=>\s*(.+?)\)` after the literal `mapping(`: grow
the lazy key until an arrow and a value match. -/
def mapKV : List Char → List Char → Option (String × String)
  | _, [] => none
  | acc, c :: cs =>
    let acc' := c :: acc
    (match eatLit "=>".data (cs.dropWhile isJsWs) with
     | some r2 =>
       (match mappingValue r2 with
        | some v => some ((⟨acc'.reverse⟩ : String), v)
        | none => none)
     | none => none).orElse (fun _ => mapKV acc' cs)

def mappingSearchAt (s : List Char) : Option (String × String) :=
  match eatLit "mapping(".data s with
  | some r => mapKV [] r
  | none => none

/-- Leftmost search of `variable.type.match(/mapping\((.+?)\s*=>\s*(.+?)\)/)`. -/
def searchMapping : List Char → Option (String × String)
  | [] => none
  | l@(_ :: t) => (mappingSearchAt l).orElse (fun _ => searchMapping t)

/-- One synthesized getter string of src/index.ts lines 534–553 (natspec
block, then the getter line; `pure` iff the variable is
constant/immutable, else `view`; a mapping type whose arrow pattern
fails contributes only the natspec text). -/
def mkGetterA (v : ParsedVariable) : String :=
  let doc := if v.natspec ≠ "" then formatNatspec v.natspec "    " ++ "\n" else ""
  let sm := if v.isConstant then " pure" else " view"
  if strStartsWith v.type "mapping" then
    match searchMapping v.type.data with
    | some (k, val) =>
      doc ++ "    function " ++ v.name ++ "(" ++ k ++ " key) external" ++ sm ++
        " returns (" ++ val ++ ");"
    | none => doc
  else
    doc ++ "    function " ++ v.name ++ "() external" ++ sm ++
      " returns (" ++ v.type ++ ");"

/-- `generateGetterFunctions` of src/index.ts (lines 524–558): one
getter per eligible variable, in variable order. -/
def generateGetterFunctionsA (st : GenState) (vars : List ParsedVariable) : List String :=
  (vars.filter (getterEligible st)).map mkGetterA

/-- One synthesized getter of src/buildInterface.ts lines 474–490: the
mutability is always `view`. -/
def mkGetterB (v : ParsedVariable) : String :=
  let doc := if v.natspec ≠ "" then formatNatspec v.natspec "    " ++ "\n" else ""
  if strStartsWith v.type "mapping" then
    match searchMapping v.type.data with
    | some (k, val) =>
      doc ++ "    function " ++ v.name ++ "(" ++ k ++ " key) external view returns (" ++
        val ++ ");"
    | none => doc
  else
    doc ++ "    function " ++ v.name ++ "() external view returns (" ++ v.type ++ ");"

/-- `generateGetterFunctions` of src/buildInterface.ts (lines 467–495). -/
def generateGetterFunctionsB (st : GenState) (vars : List ParsedVariable) : List String :=
  (vars.filter (getterEligible st)).map mkGetterB

/-! ## Interface assembly (`generateInterface`,
src/index.ts lines 560–677; src/buildInterface.ts lines 497–604) -/

def mutToString : Mutability → String
  | .view => "view"
  | .pure => "pure"
  | .payable => "payable"
  | .nonpayable => "nonpayable"

/-- The event/error rendering step of src/index.ts lines 619–644 (type
replacements applied to the parameter list). -/
def renderSigA (st : GenState) (kw : String) (e : ParsedEvent) : String :=
  (if e.natspec ≠ "" then formatNatspec e.natspec "    " ++ "\n" else "") ++
    "    " ++ kw ++ " " ++ e.name ++ "(" ++
    applyTypeReplacements st.replaceDirectives e.parameters ++ ");\n"

/-- The event/error rendering step of src/buildInterface.ts lines
556–577 (no type replacements). -/
def renderSigB (e : ParsedEvent) (kw : String) : String :=
  (if e.natspec ≠ "" then formatNatspec e.natspec "    " ++ "\n" else "") ++
    "    " ++ kw ++ " " ++ e.name ++ "(" ++ e.parameters ++ ");\n"

/-- The function rendering step of src/index.ts lines 659–672: always
`external`, mutability suffix unless `nonpayable`, type replacements on
parameters and the return clause. -/
def renderFunctionA (st : GenState) (f : ParsedFunction) : String :=
  let sm := if f.stateMutability ≠ .nonpayable then " " ++ mutToString f.stateMutability else ""
  let pp := applyTypeReplacements st.replaceDirectives f.parameters
  let pr := if f.returnType = "" then "" else applyTypeReplacements st.replaceDirectives f.returnType
  let rt := if pr ≠ "" then " returns (" ++ pr ++ ")" else ""
  (if f.natspec ≠ "" then formatNatspec f.natspec "    " ++ "\n" else "") ++
    "    function " ++ f.name ++ "(" ++ pp ++ ") external" ++ sm ++ rt ++ ";\n"

/-- The function rendering step of src/buildInterface.ts lines 590–599
(no type replacements). -/
def renderFunctionB (f : ParsedFunction) : String :=
  let sm := if f.stateMutability ≠ .nonpayable then " " ++ mutToString f.stateMutability else ""
  let rt := if f.returnType ≠ "" then " returns (" ++ f.returnType ++ ")" else ""
  (if f.natspec ≠ "" then formatNatspec f.natspec "    " ++ "\n" else "") ++
    "    function " ++ f.name ++ "(" ++ f.parameters ++ ") external" ++ sm ++ rt ++ ";\n"

/-- The function list rendered by `generateInterface`
(src/index.ts line 658). -/
def includedFunctionsA (st : GenState) : List ParsedFunction :=
  (parseFunctions markerA st.lines).filter (shouldIncludeFunction st)

/-- `generateInterface` of src/index.ts (lines 560–677).  The missing
build path throws first; the structural parses run next (`parseContract`
may throw); then the output text is assembled in fixed order: header
boilerplate, copyright, imports, contract natspec, the `interface`
header with the rewritten inheritance clause, events, errors, getters,
functions, closing brace. -/
def generateInterfaceA (st : GenState) : Except String String :=
  if st.buildPath = "" then
    .error "No build directive found. Use /// @custom:interface build <path>"
  else
    let events := parseEvents markerA st.content st.lines
    let errors := parseErrors markerA st.content st.lines
    let stateVars := parseVariablesA st.content st.lines
    match parseContract markerA st.content st.lines with
    | none => .error "Contract declaration not found"
    | some contract =>
      let header := "// SPDX-License-Identifier: MIT\npragma solidity ^0.8.20;\n\n"
      let copyrightPart :=
        if st.copyrightNotice ≠ "" then "// " ++ st.copyrightNotice ++ "\n\n" else ""
      let importsPart :=
        String.join (st.importDirectives.map (fun p => "import \"" ++ p ++ "\";\n")) ++
          (if st.importDirectives.length > 0 then "\n" else "")
      let interfaceName := "I" ++ contract.name
      let inheritClause :=
        processInheritance st.removeDirectives st.replaceDirectives st.isDirectives
          contract.inheritance
      let natspecPart :=
        if contract.natspec ≠ "" then formatNatspec contract.natspec "" ++ "\n" else ""
      let includedEvents := events.filter (shouldIncludeEvent st)
      let eventsPart :=
        if includedEvents.length > 0 then
          String.join (includedEvents.map (renderSigA st "event")) ++ "\n"
        else ""
      let includedErrors := errors.filter (shouldIncludeError st)
      let errorsPart :=
        if includedErrors.length > 0 then
          String.join (includedErrors.map (renderSigA st "error")) ++ "\n"
        else ""
      let getters := generateGetterFunctionsA st stateVars
      let gettersPart :=
        if getters.length > 0 then
          String.join (getters.map
            (fun g => applyTypeReplacements st.replaceDirectives g ++ "\n")) ++ "\n"
        else ""
      let funcsPart := String.join ((includedFunctionsA st).map (renderFunctionA st))
      .ok (header ++ copyrightPart ++ importsPart ++ natspecPart ++
        "interface " ++ interfaceName ++ inheritClause ++ " \x7b\n\n" ++
        eventsPart ++ errorsPart ++ gettersPart ++ funcsPart ++ "\x7d\n")

/-- `generateInterface` of src/buildInterface.ts (lines 497–604): same
assembly without type replacements, with the `!interface` marker, and
with the always-`view` getters. -/
def generateInterfaceB (st : GenState) : Except String String :=
  if st.buildPath = "" then
    .error "No build directive found. Use /// !interface build <path>"
  else
    let functions := parseFunctions markerB st.lines
    let events := parseEvents markerB st.content st.lines
    let errors := parseErrors markerB st.content st.lines
    let stateVars := parseVariablesB st.content st.lines
    match parseContract markerB st.content st.lines with
    | none => .error "Contract declaration not found"
    | some contract =>
      let header := "// SPDX-License-Identifier: MIT\npragma solidity ^0.8.20;\n\n"
      let copyrightPart :=
        if st.copyrightNotice ≠ "" then "// " ++ st.copyrightNotice ++ "\n\n" else ""
      let importsPart :=
        String.join (st.importDirectives.map (fun p => "import \"" ++ p ++ "\";\n")) ++
          (if st.importDirectives.length > 0 then "\n" else "")
      let interfaceName := "I" ++ contract.name
      let inheritClause :=
        processInheritance st.removeDirectives st.replaceDirectives st.isDirectives
          contract.inheritance
      let natspecPart :=
        if contract.natspec ≠ "" then formatNatspec contract.natspec "" ++ "\n" else ""
      let includedEvents := events.filter (shouldIncludeEvent st)
      let eventsPart :=
        if includedEvents.length > 0 then
          String.join (includedEvents.map (fun e => renderSigB e "event")) ++ "\n"
        else ""
      let includedErrors := errors.filter (shouldIncludeError st)
      let errorsPart :=
        if includedErrors.length > 0 then
          String.join (includedErrors.map (fun e => renderSigB e "error")) ++ "\n"
        else ""
      let getters := generateGetterFunctionsB st stateVars
      let gettersPart :=
        if getters.length > 0 then
          String.join (getters.map (fun g => g ++ "\n")) ++ "\n"
        else ""
      let funcsPart :=
        String.join ((functions.filter (shouldIncludeFunction st)).map renderFunctionB)
      .ok (header ++ copyrightPart ++ importsPart ++ natspecPart ++
        "interface " ++ interfaceName ++ inheritClause ++ " \x7b\n\n" ++
        eventsPart ++ errorsPart ++ gettersPart ++ funcsPart ++ "\x7d\n")

/-! ## File-system model and `writeInterface`
(src/index.ts lines 703–895)

The disk is an association list from absolute path to `(mtime, content)`;
`fs.readFileSync`/`existsSync`/`statSync` are lookups, `writeFileSync`
replaces or appends an entry stamped with the current time.  The `path`
collaborator is modelled for the simple relative paths the tool handles
(no `..` normalisation). -/

structure FileEntry where
  mtime : Int
  content : String
  deriving DecidableEq, Repr

abbrev FS := List (String × FileEntry)

def fsLookup (fs : FS) (p : String) : Option FileEntry :=
  match fs with
  | [] => none
  | (q, e) :: rest => if q = p then some e else fsLookup rest p

def fsWrite (fs : FS) (p : String) (content : String) (now : Int) : FS :=
  match fs with
  | [] => [(p, ⟨now, content⟩)]
  | (q, e) :: rest =>
    if q = p then (p, ⟨now, content⟩) :: rest else (q, e) :: fsWrite rest p content now

def pathIsAbsolute (p : String) : Bool := strStartsWith p "/"

/-- `path.dirname` for the simple paths used here: strip the last `/`
component; no separator yields `.`. -/
def pathDirname (p : String) : String :=
  let d := p.data
  let tailLen := (d.reverse.takeWhile (· ≠ '/')).length
  if tailLen = d.length then "."
  else if d.length - tailLen - 1 = 0 then "/"
  else ⟨d.take (d.length - tailLen - 1)⟩

/-- `path.resolve(base, p)` for the simple paths used here: an absolute
`p` wins, a leading `./` is normalised away, no `..` handling. -/
def pathResolve (base p : String) : String :=
  if pathIsAbsolute p then p
  else if strStartsWith p "./" then base ++ "/" ++ ⟨p.data.drop 2⟩
  else base ++ "/" ++ p

/-! ### Module flags (`parseModuleFlags`, src/index.ts lines 818–870) -/

structure ModuleFlags where
  remove : List String
  replace : List (String × String)
  isAdds : List String
  imports : List String
  deriving DecidableEq, Repr

/-- The `g`-flag scan of the regex `--remove\s+(\w+)(?:\s|$)` (global):
resume after each match (the trailing whitespace, when present, is part
of the match). -/
def scanRemoveFlags : Nat → List Char → List String
  | 0, _ => []
  | _, [] => []
  | fuel + 1, l@(_ :: t) =>
    match (do
      let r ← eatLit "--remove".data l
      let r ← eatWs1 r
      let (w, rest) ← eatWord1 r
      match rest with
      | [] => some ((⟨w⟩ : String), l.length)
      | x :: _ =>
        if isJsWs x then some ((⟨w⟩ : String), l.length - rest.length + 1) else none) with
    | some (w, len) => w :: scanRemoveFlags fuel (l.drop len)
    | none => scanRemoveFlags fuel t

/-- The `g`-flag scan of the regex `--replace\s+(\w+)\s+with\s+(\w+)(?:\s|$)` (global). -/
def scanReplaceFlags : Nat → List Char → List (String × String)
  | 0, _ => []
  | _, [] => []
  | fuel + 1, l@(_ :: t) =>
    match (do
      let r ← eatLit "--replace".data l
      let r ← eatWs1 r
      let (a, r) ← eatWord1 r
      let r ← eatWs1 r
      let r ← eatLit "with".data r
      let r ← eatWs1 r
      let (b, rest) ← eatWord1 r
      match rest with
      | [] => some ((⟨a⟩ : String), (⟨b⟩ : String), l.length)
      | x :: _ =>
        if isJsWs x then some ((⟨a⟩ : String), (⟨b⟩ : String), l.length - rest.length + 1)
        else none) with
    | some (a, b, len) => (a, b) :: scanReplaceFlags fuel (l.drop len)
    | none => scanReplaceFlags fuel t

/-- The first match of the regex `--is\s+([^-]+)(?:--|$)`: greedy `\s+`, greedy
`[^-]+` capture, then a literal `--` or the end.  When everything after
the whitespace starts with `-`, backtracking hands the last whitespace
character to the capture (needs a run of length ≥ 2). -/
def isFlagSearch : List Char → Option String
  | [] => none
  | l@(_ :: t) =>
    ((match eatLit "--is".data l with
      | none => none
      | some r =>
        let ws := r.takeWhile isJsWs
        let rest := r.dropWhile isJsWs
        if ws = [] then none
        else
          let run := rest.takeWhile (· ≠ '-')
          let after := rest.drop run.length
          if run ≠ [] then
            if after = [] ∨ chStarts "--".data after then some (⟨run⟩ : String) else none
          else
            if ws.length ≥ 2 ∧ (rest = [] ∨ chStarts "--".data rest) then
              match ws.getLast? with
              | some w => some (⟨[w]⟩ : String)
              | none => none
            else none : Option String)).orElse (fun _ => isFlagSearch t)

/-- The `g`-flag scan of the regex `--import\s+(?:"([^"]+)"|(\S+))(?:\s|$)` (global). -/
def scanImportFlags : Nat → List Char → List String
  | 0, _ => []
  | _, [] => []
  | fuel + 1, l@(_ :: t) =>
    match (do
      let r ← eatLit "--import".data l
      let rest ← eatWs1 r
      (match eatQuoted rest with
       | some (inner, tail) =>
         (match tail with
          | [] => some ((⟨inner⟩ : String), l.length)
          | x :: _ =>
            if isJsWs x then some ((⟨inner⟩ : String), l.length - tail.length + 1) else none)
       | none => none)
      <|>
      (let tok := rest.takeWhile (fun ch => ¬ isJsWs ch)
       let tail := rest.dropWhile (fun ch => ¬ isJsWs ch)
       if tok = [] then none
       else match tail with
         | [] => some ((⟨tok⟩ : String), l.length)
         | _ => some ((⟨tok⟩ : String), l.length - tail.length + 1))) with
    | some (w, len) => w :: scanImportFlags fuel (l.drop len)
    | none => scanImportFlags fuel t

/-- `parseModuleFlags` (src/index.ts lines 818–870). -/
def parseModuleFlags (flags : String) : ModuleFlags :=
  if flags = "" then ⟨[], [], [], []⟩
  else
    { remove := scanRemoveFlags (flags.data.length + 1) flags.data
      replace :=
        (scanReplaceFlags (flags.data.length + 1) flags.data).foldl
          (fun m p => mapSet m p.1 p.2) []
      isAdds :=
        match isFlagSearch flags.data with
        | some cap => ((strSplitOn ',' (jsTrim cap)).map jsTrim).filter (· ≠ "")
        | none => []
      imports := scanImportFlags (flags.data.length + 1) flags.data }

/-- `applyModuleFlags` (src/index.ts lines 872–894): overlay the module
flags onto the nested generator's directive state. -/
def applyModuleFlags (g : GenState) (mf : ModuleFlags) : GenState :=
  let g := mf.remove.foldl
    (fun g i => { g with removeDirectives := setAdd g.removeDirectives i }) g
  let g := mf.replace.foldl
    (fun g p => { g with replaceDirectives := mapSet g.replaceDirectives p.1 p.2 }) g
  let g := mf.isAdds.foldl
    (fun g i => { g with isDirectives := g.isDirectives ++ [i] }) g
  mf.imports.foldl
    (fun g i =>
      if listHas i g.importDirectives then g
      else { g with importDirectives := g.importDirectives ++ [i] }) g

/-- The resolved output path of a module directive
(src/index.ts lines 798–805): absolute, or relative to the directory of
the owning contract. -/
def moduleOutPath (contractPath toP : String) : String :=
  if pathIsAbsolute toP then toP else pathResolve (pathDirname contractPath) toP

/-- `processModuleDirective` (src/index.ts lines 746–816): resolve the
referenced file (`@` = `node_modules` of the cwd, `.` = relative to the
contract, else absolute), construct a nested generator over its content,
overlay the flags, override the build path with the module's target, and
generate.  Returns the generated text (written by the caller to
`moduleOutPath`, whose value does not depend on the disk); any failure
is an error (caught by the caller's per-directive `try`). -/
def processModuleDirective (fs : FS) (cwd contractPath : String) (md : ModuleDirective) :
    Except String String :=
  let mf := parseModuleFlags md.flags
  let resolvedE : Except String String :=
    if strStartsWith md.fromPath "@" then
      let pkg := cwd ++ "/node_modules/" ++ md.fromPath
      if (fsLookup fs pkg).isSome then .ok pkg
      else .error ("Could not resolve module path: " ++ md.fromPath)
    else if strStartsWith md.fromPath "." then
      .ok (pathResolve (pathDirname contractPath) md.fromPath)
    else .ok md.fromPath
  match resolvedE with
  | .error e => .error e
  | .ok resolved =>
    match fsLookup fs resolved with
    | none => .error ("Module file not found: " ++ resolved)
    | some entry =>
      let temp := mkGenStateA entry.content
      let temp := applyModuleFlags temp mf
      let temp := { temp with buildPath := md.toPath }
      generateInterfaceA temp

/-! ### `writeInterface` (src/index.ts lines 703–744) -/

inductive WriteOutcome
  | generated | skipped
  deriving DecidableEq, Repr

/-- One iteration of the module loop (lines 705–711): a failing module
directive is caught, logged, and leaves the disk unchanged. -/
def processModulesStep (cwd contractPath : String) (now : Int) (fs : FS)
    (md : ModuleDirective) : FS :=
  match processModuleDirective fs cwd contractPath md with
  | .ok c => fsWrite fs (moduleOutPath contractPath md.toPath) c now
  | .error _ => fs

def processModules (cwd contractPath : String) (now : Int) (fs : FS)
    (mds : List ModuleDirective) : FS :=
  mds.foldl (processModulesStep cwd contractPath now) fs

/-- The resolved primary output path (src/index.ts lines 714–720). -/
def primaryOutPath (contractPath : String) (st : GenState) : String :=
  if pathIsAbsolute st.buildPath then st.buildPath
  else pathResolve (pathDirname contractPath) st.buildPath

/-- The primary-output portion of `writeInterface` (src/index.ts lines
713–744): resolve the build path against the contract's directory, skip
when the output exists and is strictly newer than the source and no
force flag is set, otherwise generate and write.  `contractMtime` is the
source file's mtime as read by `fs.statSync(this.contractPath)`. -/
def writePrimary (fs : FS) (contractPath : String) (contractMtime now : Int)
    (force : Bool) (st : GenState) : Except String (WriteOutcome × FS) :=
  let outputPath := primaryOutPath contractPath st
  let skipQ : Bool := !force &&
    (match fsLookup fs outputPath with
     | some e => decide (e.mtime > contractMtime)
     | none => false)
  if skipQ then .ok (.skipped, fs)
  else
    match generateInterfaceA st with
    | .error e => .error e
    | .ok content => .ok (.generated, fsWrite fs outputPath content now)

/-- `writeInterface` (src/index.ts lines 703–744): process every module
directive first (each writing its own output file, failures isolated),
then run the skip check and primary write on the resulting disk. -/
def writeInterface (fs : FS) (cwd contractPath : String) (contractMtime now : Int)
    (force : Bool) (st : GenState) : Except String (WriteOutcome × FS) :=
  let fs1 := processModules cwd contractPath now fs st.moduleDirectives
  writePrimary fs1 contractPath contractMtime now force st

/-! ## Claim-side (specification-worded) definitions -/

/-- The inheritance clause exactly as the specification words it: each
entry of the original base list is dropped when present in the remove
set, otherwise substituted via the replace map, otherwise unchanged;
then every `is`-directive name in encounter order including duplicates;
an empty combined list yields no `is ` clause at all. -/
def specInheritanceClause (removeS : List String) (rp : List (String × String))
    (isDirs : List String) (inh : String) : String :=
  let entries := if inh = "" then [] else (strSplitOn ',' inh).map jsTrim
  let processed := entries.filterMap
    (fun e => if listHas e removeS then none else some (mapGetD rp e))
  let combined := processed ++ isDirs
  if combined = [] then "" else " is " ++ strJoin ", " combined

/-- Boundary replacement exactly as the specification words rule (2):
*every* occurrence bounded on the left by `(`, `,` or whitespace and on
the right by whitespace, `,`, `)` or `[` is replaced — after a match the
scan resumes *at* the right boundary character, so that character can
also serve as the left boundary of an adjacent occurrence. -/
def specBoundedAux (orig repl : List Char) : Nat → List Char → List Char
  | _, [] => []
  | 0, l => l
  | fuel + 1, c :: cs =>
    match cs.drop orig.length with
    | r :: _ =>
      if isLeftBound c ∧ chStarts orig cs ∧ isRightBound r then
        (c :: repl) ++ specBoundedAux orig repl fuel (cs.drop orig.length)
      else
        c :: specBoundedAux orig repl fuel cs
    | [] => c :: specBoundedAux orig repl fuel cs

def specBoundedReplaceAll (orig repl text : String) : String :=
  if text = orig then repl
  else ⟨specBoundedAux orig.data repl.data text.data.length text.data⟩

/-! ## Claims -/

/-- **C2.**  The rendered inheritance clause equals the original
header's comma-separated base list with each entry dropped when present
in the remove set, otherwise substituted via the replace map, otherwise
unchanged, followed by every name from `is` directives in encounter
order including duplicates; when the combined list is empty no `is`
clause is emitted at all.  In particular, for header `is A, B` with
directives `remove B`, `replace A with IA`, and `is C`, the rendered
clause is exactly ` is IA, C`. -/
theorem c2_inheritance_clause :
    (∀ (removeS : List String) (rp : List (String × String))
        (isDirs : List String) (inh : String),
      processInheritance removeS rp isDirs inh = specInheritanceClause removeS rp isDirs inh)
    ∧ processInheritance ["B"] [("A", "IA")] ["C"] "A, B" = " is IA, C" := by
  constructor
  · intro removeS rp isDirs inh
    unfold processInheritance specInheritanceClause
    have hfm : ∀ (l : List String),
        (l.filter (fun c => !listHas c removeS)).map (fun c => mapGetD rp c)
          = l.filterMap (fun e => if listHas e removeS then none else some (mapGetD rp e)) := by
      intro l
      induction l with
      | nil => rfl
      | cons a t ih =>
        by_cases h : listHas a removeS
        · simp [List.filter_cons, List.filterMap_cons, h, ih]
        · simp [List.filter_cons, List.filterMap_cons, h, ih]

    by_cases hinh : inh = ""
    · simp only [hinh, if_pos rfl]
      cases hl : isDirs with
      | nil => simp
      | cons x xs => simp
    · simp only [if_neg hinh, hfm]
      set combined :=
        ((strSplitOn ',' inh).map jsTrim).filterMap
          (fun e => if listHas e removeS then none else some (mapGetD rp e)) ++ isDirs with hc
      cases hcomb : combined with
      | nil => simp [hcomb]
      | cons x xs => simp [hcomb]
  · rfl

/-- **C3, counterexample.**  With the single mapping
`Ownable ↦ IOwnable`, the fragment `(Ownable,Ownable)` contains two
occurrences bounded as rule (2) describes, yet the code replaces only
the first: the comma consumed as the first match's right boundary cannot
serve as the second occurrence's left boundary, so the output differs
from the claim's "every bounded occurrence replaced". -/
theorem c3_counterexample :
    applyTypeReplacements [("Ownable", "IOwnable")] "(Ownable,Ownable)" = "(IOwnable,Ownable)"
    ∧ specBoundedReplaceAll "Ownable" "IOwnable" "(Ownable,Ownable)" = "(IOwnable,IOwnable)"
    ∧ applyTypeReplacements [("Ownable", "IOwnable")] "(Ownable,Ownable)"
        ≠ specBoundedReplaceAll "Ownable" "IOwnable" "(Ownable,Ownable)" := by
  refine ⟨by decide, by decide, by decide⟩

/-- **C3, amended.**  Type substitution applies, per mapped pair, two
rules: (1) a fragment equal to the source name is replaced wholly;
(2) otherwise occurrences bounded by `(`, `,` or whitespace on the left
and whitespace, `,`, `)` or `[` on the right are replaced by a single
left-to-right scan in which each match consumes its right boundary
character, so the second of two bounded occurrences sharing a boundary
character is left unchanged (`(Ownable,Ownable)` renders as
`(IOwnable,Ownable)`).  Consequently `address a, Ownable b, Ownable[] c`
renders as `address a, IOwnable b, IOwnable[] c` and the bare return
clause `Ownable` renders as `IOwnable`. -/
theorem c3_type_substitution_amended :
    (∀ orig repl : String, orig ≠ "" →
      applyTypeReplacements [(orig, repl)] orig = repl)
    ∧ applyTypeReplacements [("Ownable", "IOwnable")] "address a, Ownable b, Ownable[] c"
        = "address a, IOwnable b, IOwnable[] c"
    ∧ applyTypeReplacements [("Ownable", "IOwnable")] "Ownable" = "IOwnable"
    ∧ applyTypeReplacements [("Ownable", "IOwnable")] "(Ownable,Ownable)"
        = "(IOwnable,Ownable)" := by
  refine ⟨?_, by decide, by decide, by decide⟩
  intro orig repl h
  simp [applyTypeReplacements, h]

/-- Witness for the hypothesis of `c3_type_substitution_amended`. -/
theorem c3_type_substitution_amended_witness :
    ("Ownable" : String) ≠ "" ∧
      applyTypeReplacements [("Ownable", "IOwnable")] "Ownable" = "IOwnable" :=
  ⟨by decide, c3_type_substitution_amended.1 "Ownable" "IOwnable" (by decide)⟩

/-- The C7 failing input: a documentation line directly above the
contract declaration. -/
def c7Input : String := "/// @notice docA\ncontract Foo \x7b\n\x7d"

/-- **C7.**  The documentation-association operation itself returns the
contiguous block immediately preceding a 1-based line number — applied
to the contract declaration on line 2 of the failing input it returns
`/// @notice docA` — but `parseContract` passes the 0-based `findIndex`
result where the 1-based line number is expected, so the contract record
carries an empty natspec: the rendered contract-level block does *not*
start with the line immediately above the declaration. -/
theorem c7_contract_doc_offset :
    parseContract markerA c7Input (strSplitOn '\n' c7Input)
        = some { name := "Foo", natspec := "", inheritance := "" }
    ∧ extractNatspecForLine markerA (strSplitOn '\n' c7Input) 2 = "/// @notice docA"
    ∧ ("" : String) ≠ "/// @notice docA" := by
  refine ⟨by decide, by decide, by decide⟩

/-- **C8.**  If the primary output file exists with a modification time
strictly newer than the source's and the force flag is false, the write
operation returns the `skipped` outcome with the file system unchanged:
nothing is generated and the existing output stays byte-identical. -/
theorem c8_skip_up_to_date (fs : FS) (contractPath : String)
    (contractMtime now : Int) (st : GenState) (e : FileEntry)
    (hlook : fsLookup fs (primaryOutPath contractPath st) = some e)
    (hnew : e.mtime > contractMtime) :
    writePrimary fs contractPath contractMtime now false st = .ok (.skipped, fs) := by
  unfold writePrimary
  simp [hlook, hnew]

/-- Witness for `c8_skip_up_to_date`. -/
theorem c8_skip_up_to_date_witness :
    writePrimary [("/p/IFoo.sol", ⟨50, "OLD"⟩)] "/p/Foo.sol" 10 99 false
        { content := "x", lines := ["x"], buildPath := "./IFoo.sol" }
      = .ok (.skipped, [("/p/IFoo.sol", ⟨50, "OLD"⟩)]) :=
  c8_skip_up_to_date [("/p/IFoo.sol", ⟨50, "OLD"⟩)] "/p/Foo.sol" 10 99
    { content := "x", lines := ["x"], buildPath := "./IFoo.sol" }
    ⟨50, "OLD"⟩ (by decide) (by decide)

/-- The C9 inputs: a contract with a constant public variable, written
once under each directive marker (the texts are identical except for the
marker string prepended to the shared suffix). -/
def c9Suffix : String :=
  " build ./IToken.sol\ncontract Token \x7b\n    uint256 public constant supply = 100;\n\x7d"

/-- The C9 agreement inputs: a contract exercising only the common core
(one external function, no state variables, no replace/module
directives). -/
def c9EqSuffix : String :=
  " build ./IFoo.sol\ncontract Foo \x7b\n    function f() external pure returns (uint256) \x7b\n        return 1;\n    \x7d\n\x7d"

/-- **C9, counterexample.**  Two input texts identical except for the
directive marker: the `@custom:interface` generator renders the constant
variable's getter with `pure`, the `!interface` generator with `view`,
so the two front ends are not the same engine under different
tokenizers. -/
theorem c9_counterexample :
    generateInterfaceA (mkGenStateA (markerA ++ c9Suffix))
        = .ok "// SPDX-License-Identifier: MIT\npragma solidity ^0.8.20;\n\ninterface IToken \x7b\n\n    function supply() external pure returns (uint256);\n\n\x7d\n"
    ∧ generateInterfaceB (mkGenStateB (markerB ++ c9Suffix))
        = .ok "// SPDX-License-Identifier: MIT\npragma solidity ^0.8.20;\n\ninterface IToken \x7b\n\n    function supply() external view returns (uint256);\n\n\x7d\n"
    ∧ ("// SPDX-License-Identifier: MIT\npragma solidity ^0.8.20;\n\ninterface IToken \x7b\n\n    function supply() external pure returns (uint256);\n\n\x7d\n" : String)
        ≠ "// SPDX-License-Identifier: MIT\npragma solidity ^0.8.20;\n\ninterface IToken \x7b\n\n    function supply() external view returns (uint256);\n\n\x7d\n" := by
  refine ⟨by rfl, by rfl, by decide⟩

/-- **C9, amended.**  The two directive-syntax front ends share the same
pipeline structure but are not extensionally the same engine: the
`@custom:interface` variant applies type replacements and renders `pure`
getters for constant variables while the `!interface` variant does not
(and their `build`/`import` grammars and variable regexes differ).  For
marker-swapped inputs that avoid the divergent features the outputs
coincide, e.g. on a contract with a single external function. -/
theorem c9_front_ends_amended :
    generateInterfaceA (mkGenStateA (markerA ++ c9EqSuffix))
      = generateInterfaceB (mkGenStateB (markerB ++ c9EqSuffix)) := by
  rfl

/-- Boolean characterization of `shouldIncludeFunction`. -/
theorem shouldIncludeFunction_iff (st : GenState) (f : ParsedFunction) :
    shouldIncludeFunction st f = true ↔
      (listHas f.name st.includeDirectives = true ∨
        (listHas f.name st.excludeDirectives = false ∧
          (f.visibility = .ext ∨ f.visibility = .pub))) := by
  unfold shouldIncludeFunction
  by_cases h1 : listHas f.name st.includeDirectives <;>
    by_cases h2 : listHas f.name st.excludeDirectives <;>
      cases hv : f.visibility <;> simp [h1, h2, hv]

/-- **C1.**  A parsed function appears in the function list rendered
into the generated interface if and only if it is named in the include
set (which overrides everything, including the exclude set), or it is
both not named in the exclude set and declared with external or public
visibility.  In particular an internal function is absent unless named
in an include directive, and an external function is absent only if
named in an exclude directive. -/
theorem c1_function_inclusion (st : GenState) (f : ParsedFunction)
    (h : f ∈ parseFunctions markerA st.lines) :
    f ∈ includedFunctionsA st ↔
      (listHas f.name st.includeDirectives = true ∨
        (listHas f.name st.excludeDirectives = false ∧
          (f.visibility = .ext ∨ f.visibility = .pub))) := by
  unfold includedFunctionsA
  rw [List.mem_filter]
  rw [shouldIncludeFunction_iff]
  exact ⟨fun ⟨_, hx⟩ => hx, fun hx => ⟨h, hx⟩⟩

/-- The C1 witness input: an `internal` function named in an `include`
directive. -/
def c1Input : String :=
  "/// @custom:interface build ./I.sol\n/// @custom:interface include secret\ncontract C \x7b\n    function secret() internal \x7b\n    \x7d\n\x7d"

def c1Func : ParsedFunction :=
  { name := "secret", visibility := .intern, stateMutability := .nonpayable,
    parameters := "", returnType := "", modifiers := [],
    fullSignature := " function secret() internal \x7b", natspec := "", lineNumber := 4 }

/-- Witness for `c1_function_inclusion`: the internal function named in
the include directive is parsed and appears in the rendered list. -/
theorem c1_function_inclusion_witness :
    c1Func ∈ parseFunctions markerA (mkGenStateA c1Input).lines ∧
      c1Func ∈ includedFunctionsA (mkGenStateA c1Input) :=
  ⟨by decide,
   (c1_function_inclusion (mkGenStateA c1Input) c1Func (by decide)).mpr
     (Or.inl (by decide))⟩

/-- `storeDirective` never touches the build path (the `build` side
effect lives in `parseDirectiveContent` alone). -/
theorem storeDirective_buildPath (st : GenState) (d : InterfaceDirective) :
    (storeDirective st d).buildPath = st.buildPath := by
  unfold storeDirective
  cases d.type <;> (try rfl) <;> (repeat' split) <;> rfl

/-- When the capture fails the well-formed `build` grammar, no branch of
`parseDirectiveContent` records a build path. -/
theorem parseDirectiveContentA_snd (content : String)
    (h : buildPathOfA content.data = none) :
    (parseDirectiveContentA content).2 = none := by
  unfold parseDirectiveContentA
  rw [h]
  repeat' split
  all_goals first | rfl | simp_all

theorem applyDirectiveLine_buildPath (st : GenState) (line : String)
    (h : (directiveCapture markerA line).bind
        (fun cap => buildPathOfA (jsTrim cap).data) = none) :
    (applyDirectiveLine parseDirectiveContentA markerA st line).buildPath = st.buildPath := by
  unfold applyDirectiveLine
  cases hc : directiveCapture markerA line with
  | none => rfl
  | some cap =>
    rw [hc] at h
    simp only [Option.bind] at h
    have h2 := parseDirectiveContentA_snd (jsTrim cap) h
    cases hp : parseDirectiveContentA (jsTrim cap) with
    | mk d bp =>
      rw [hp] at h2
      simp at h2
      subst h2
      simp only [hp]
      exact storeDirective_buildPath st d

theorem foldl_buildPath (ls : List String) (st : GenState)
    (h : ∀ line ∈ ls, (directiveCapture markerA line).bind
        (fun cap => buildPathOfA (jsTrim cap).data) = none) :
    (ls.foldl (applyDirectiveLine parseDirectiveContentA markerA) st).buildPath
      = st.buildPath := by
  induction ls generalizing st with
  | nil => rfl
  | cons a t ih =>
    rw [List.foldl_cons]
    rw [ih _ (fun l hl => h l (List.mem_cons_of_mem a hl))]
    exact applyDirectiveLine_buildPath st a (h a (List.mem_cons_self a t))

/-- **C4.**  If, after directive parsing, no well-formed
`build <path>` directive was found (covering the missing-path `build`
and the permissive fallback classification, neither of which records a
build path), then the generator's build path is empty, invoking
interface generation returns the `No build directive found` error with
no output text assembled, and the write operation writes no file (it
either skips before generating or propagates the error before its
write step). -/
theorem c4_no_build_directive (content : String)
    (h : ∀ line ∈ strSplitOn '\n' content,
      (directiveCapture markerA line).bind
        (fun cap => buildPathOfA (jsTrim cap).data) = none) :
    (mkGenStateA content).buildPath = ""
    ∧ generateInterfaceA (mkGenStateA content)
        = .error "No build directive found. Use /// @custom:interface build <path>"
    ∧ ∀ (fs : FS) (contractPath : String) (cm now : Int) (force : Bool),
        writePrimary fs contractPath cm now force (mkGenStateA content)
            = .ok (.skipped, fs)
          ∨ writePrimary fs contractPath cm now force (mkGenStateA content)
            = .error "No build directive found. Use /// @custom:interface build <path>" := by
  have hbp : (mkGenStateA content).buildPath = "" := by
    unfold mkGenStateA mkGenState
    exact foldl_buildPath _ _ h
  have hgen : generateInterfaceA (mkGenStateA content)
      = .error "No build directive found. Use /// @custom:interface build <path>" := by
    unfold generateInterfaceA
    rw [if_pos hbp]
  refine ⟨hbp, hgen, ?_⟩
  intro fs contractPath cm now force
  unfold writePrimary
  by_cases hskip : (!force &&
      (match fsLookup fs (primaryOutPath contractPath (mkGenStateA content)) with
       | some e => decide (e.mtime > cm)
       | none => false)) = true
  · left
    simp [hskip]
  · right
    simp only [Bool.not_eq_true] at hskip
    simp [hskip, hgen]

/-- The C4 witness input: a missing-path `build`, a fallback-classified
directive and an `exclude` directive, none of which records a build
path. -/
def c4Input : String :=
  "/// @custom:interface build\n/// @custom:interface frobnicate x\n/// @custom:interface exclude foo\ncontract C \x7b\n\x7d"

/-- Witness for `c4_no_build_directive`. -/
theorem c4_no_build_directive_witness :
    (mkGenStateA c4Input).buildPath = ""
    ∧ generateInterfaceA (mkGenStateA c4Input)
        = .error "No build directive found. Use /// @custom:interface build <path>" :=
  ⟨(c4_no_build_directive c4Input (by decide)).1,
   (c4_no_build_directive c4Input (by decide)).2.1⟩

/-- Boolean characterization of `getterEligible`. -/
theorem getterEligible_iff (st : GenState) (v : ParsedVariable) :
    getterEligible st v = true ↔
      (listHas v.name st.getterDirectives = true ∨
        (v.visibility = .pub ∧ listHas v.name st.excludeDirectives = false)) := by
  unfold getterEligible
  by_cases h1 : listHas v.name st.getterDirectives <;>
    by_cases h2 : listHas v.name st.excludeDirectives <;>
      cases hv : v.visibility <;> simp [h1, h2, hv]

/-- **C5.**  Every variable eligible for a getter (named in the getter
set, or public and not named in the exclude set) yields a synthesized
getter among the generated getter strings: for a scalar type the line
`function <name>() external <pure|view> returns (<type>);` and for a
mapping type whose arrow pattern matches with key/value captures the
line `function <name>(<keyType> key) external <pure|view> returns
(<valueType>);`, each preceded by the variable's formatted natspec and
with the mutability `pure` iff the variable is declared
constant/immutable, `view` otherwise. -/
theorem c5_getter_synthesis (st : GenState) (vars : List ParsedVariable)
    (v : ParsedVariable) (hv : v ∈ vars)
    (helig : listHas v.name st.getterDirectives = true ∨
      (v.visibility = .pub ∧ listHas v.name st.excludeDirectives = false)) :
    (strStartsWith v.type "mapping" = false →
      ((if v.natspec ≠ "" then formatNatspec v.natspec "    " ++ "\n" else "") ++
          "    function " ++ v.name ++ "() external" ++
          (if v.isConstant then " pure" else " view") ++
          " returns (" ++ v.type ++ ");")
        ∈ generateGetterFunctionsA st vars)
    ∧ (∀ k val, strStartsWith v.type "mapping" = true →
        searchMapping v.type.data = some (k, val) →
      ((if v.natspec ≠ "" then formatNatspec v.natspec "    " ++ "\n" else "") ++
          "    function " ++ v.name ++ "(" ++ k ++ " key) external" ++
          (if v.isConstant then " pure" else " view") ++
          " returns (" ++ val ++ ");")
        ∈ generateGetterFunctionsA st vars) := by
  have he : getterEligible st v = true := (getterEligible_iff st v).mpr helig
  have hmem : mkGetterA v ∈ generateGetterFunctionsA st vars := by
    unfold generateGetterFunctionsA
    exact List.mem_map_of_mem _ (List.mem_filter.mpr ⟨hv, he⟩)
  constructor
  · intro hnm
    have heq : mkGetterA v
        = (if v.natspec ≠ "" then formatNatspec v.natspec "    " ++ "\n" else "") ++
            "    function " ++ v.name ++ "() external" ++
            (if v.isConstant then " pure" else " view") ++
            " returns (" ++ v.type ++ ");" := by
      unfold mkGetterA
      rw [hnm]
      simp
    rw [← heq]
    exact hmem
  · intro k val hm hsearch
    have heq : mkGetterA v
        = (if v.natspec ≠ "" then formatNatspec v.natspec "    " ++ "\n" else "") ++
            "    function " ++ v.name ++ "(" ++ k ++ " key) external" ++
            (if v.isConstant then " pure" else " view") ++
            " returns (" ++ val ++ ");" := by
      unfold mkGetterA
      rw [hm, hsearch]
      simp
    rw [← heq]
    exact hmem

/-- The C5 witness input: a public constant variable with a doc line. -/
def c5Input : String :=
  "/// @custom:interface build ./I.sol\ncontract C \x7b\n    /// @notice total\n    uint256 public constant supply = 1;\n\x7d"

def c5Var : ParsedVariable :=
  { name := "supply", type := "uint256", visibility := .pub, isConstant := true,
    fullSignature := "uint256 public constant supply =",
    natspec := "/// @notice total", lineNumber := 4 }

/-- Witness for `c5_getter_synthesis`: the parsed public constant
variable yields a `pure` getter with its doc block. -/
theorem c5_getter_synthesis_witness :
    "    /// @notice total\n    function supply() external pure returns (uint256);"
      ∈ generateGetterFunctionsA (mkGenStateA c5Input)
          (parseVariablesA c5Input (mkGenStateA c5Input).lines) := by
  have h := (c5_getter_synthesis (mkGenStateA c5Input)
    (parseVariablesA c5Input (mkGenStateA c5Input).lines) c5Var
    (by decide) (Or.inr ⟨by decide, by decide⟩)).1 (by decide)
  simpa using h

theorem fsLookup_fsWrite_self (fs : FS) (p c : String) (now : Int) :
    fsLookup (fsWrite fs p c now) p = some ⟨now, c⟩ := by
  induction fs with
  | nil => simp [fsWrite, fsLookup]
  | cons h t ih =>
    cases h with
    | mk q e =>
      by_cases hq : q = p <;> simp [fsWrite, fsLookup, hq, ih]

theorem fsLookup_fsWrite_other (fs : FS) (p q c : String) (now : Int) (h : q ≠ p) :
    fsLookup (fsWrite fs q c now) p = fsLookup fs p := by
  induction fs with
  | nil => simp [fsWrite, fsLookup, h]
  | cons hd t ih =>
    cases hd with
    | mk r e =>
      by_cases hr : r = q
      · subst hr
        simp [fsWrite, fsLookup, h]
      · simp [fsWrite, fsLookup, hr, ih]

/-- Later module directives whose output paths avoid `p` leave the disk
at `p` unchanged. -/
theorem processModules_preserves (cwd cp : String) (now : Int) (p : String)
    (mds : List ModuleDirective) (g : FS)
    (h : ∀ md2 ∈ mds, moduleOutPath cp md2.toPath ≠ p) :
    fsLookup (processModules cwd cp now g mds) p = fsLookup g p := by
  induction mds generalizing g with
  | nil => rfl
  | cons a t ih =>
    have step : fsLookup (processModulesStep cwd cp now g a) p = fsLookup g p := by
      unfold processModulesStep
      cases hp : processModuleDirective g cwd cp a with
      | error e => rfl
      | ok c =>
        exact fsLookup_fsWrite_other g p (moduleOutPath cp a.toPath) c now
          (h a (List.mem_cons_self a t))
    unfold processModules
    rw [List.foldl_cons]
    have ihh := ih (processModulesStep cwd cp now g a)
      (fun md2 hm => h md2 (List.mem_cons_of_mem a hm))
    unfold processModules at ihh
    rw [ihh, step]

/-- **C10.**  The write operation processes all module directives before
the up-to-date timestamp check on the primary output, each writing its
own output file with per-directive failures caught and not propagated
(the surrounding directives `mds1`/`mds2` are unconstrained and may fail
arbitrarily); consequently a module directive that processes
successfully has its output file rewritten with the fresh content even
when the primary interface is skipped as up to date. -/
theorem c10_modules_before_skip (fs : FS) (cwd contractPath : String)
    (cm now : Int) (st : GenState) (mds1 mds2 : List ModuleDirective)
    (md : ModuleDirective) (c : String) (e : FileEntry)
    (hsplit : st.moduleDirectives = mds1 ++ md :: mds2)
    (hproc : processModuleDirective (processModules cwd contractPath now fs mds1)
        cwd contractPath md = .ok c)
    (hlater : ∀ md2 ∈ mds2,
        moduleOutPath contractPath md2.toPath ≠ moduleOutPath contractPath md.toPath)
    (hlook : fsLookup (processModules cwd contractPath now fs st.moduleDirectives)
        (primaryOutPath contractPath st) = some e)
    (hnew : e.mtime > cm) :
    writeInterface fs cwd contractPath cm now false st
        = .ok (.skipped, processModules cwd contractPath now fs st.moduleDirectives)
    ∧ fsLookup (processModules cwd contractPath now fs st.moduleDirectives)
        (moduleOutPath contractPath md.toPath)
        = some ⟨now, c⟩ := by
  constructor
  · unfold writeInterface writePrimary
    simp [hlook, hnew]
  · rw [hsplit] at hlook ⊢
    have hsplitfs : processModules cwd contractPath now fs (mds1 ++ md :: mds2)
        = processModules cwd contractPath now
            (processModulesStep cwd contractPath now
              (processModules cwd contractPath now fs mds1) md) mds2 := by
      unfold processModules
      rw [List.foldl_append, List.foldl_cons]
    rw [hsplitfs,
      processModules_preserves cwd contractPath now
        (moduleOutPath contractPath md.toPath) mds2 _ hlater]
    unfold processModulesStep
    rw [hproc]
    exact fsLookup_fsWrite_self _ _ _ _

/-- The C10 witness scenario: a dependency contract referenced by one
module directive, with the primary output already up to date. -/
def c10ModSrc : String :=
  "/// @custom:interface build ./unused.sol\ncontract Dep \x7b\n    function g() external \x7b\n    \x7d\n\x7d"

def c10MainSrc : String :=
  "/// @custom:interface build ./IMain.sol\n/// @custom:interface module \"./Dep.sol\" to \"./IDep.sol\"\ncontract Main \x7b\n    function f() external \x7b\n    \x7d\n\x7d"

def c10Fs : FS :=
  [("/proj/contracts/Dep.sol", ⟨5, c10ModSrc⟩),
   ("/proj/contracts/IMain.sol", ⟨100, "OLD"⟩)]

def c10DepOut : String :=
  "// SPDX-License-Identifier: MIT\npragma solidity ^0.8.20;\n\ninterface IDep \x7b\n\n    function g() external;\n\x7d\n"

/-- Witness for `c10_modules_before_skip`: the primary interface is
skipped as up to date, yet the module's output file is rewritten. -/
theorem c10_modules_before_skip_witness :
    writeInterface c10Fs "/proj" "/proj/contracts/Main.sol" 10 200 false
        (mkGenStateA c10MainSrc)
      = .ok (.skipped, processModules "/proj" "/proj/contracts/Main.sol" 200 c10Fs
          (mkGenStateA c10MainSrc).moduleDirectives)
    ∧ fsLookup (processModules "/proj" "/proj/contracts/Main.sol" 200 c10Fs
          (mkGenStateA c10MainSrc).moduleDirectives)
        (moduleOutPath "/proj/contracts/Main.sol" "./IDep.sol")
      = some ⟨200, c10DepOut⟩ :=
  c10_modules_before_skip c10Fs "/proj" "/proj/contracts/Main.sol" 10 200
    (mkGenStateA c10MainSrc) [] [] ⟨"./Dep.sol", "./IDep.sol", ""⟩
    c10DepOut ⟨100, "OLD"⟩
    (by rfl) (by rfl) (by intro md2 hm; cases hm) (by rfl) (by decide)

/-! ## C6 infrastructure: classifying lines for the backward scan -/

/-- A single-line doc comment that is neither a directive line nor a
block-comment closer. -/
def isDocLine (s : String) : Bool :=
  strStartsWith s "/// " && !strStartsWith s markerA && !strContains s "*/"

/-- A directive-marker line, transparently skipped by the scan. -/
def isDirectiveLine (s : String) : Bool := strStartsWith s markerA

/-- A (trimmed) line at which the backward scan stops: non-empty, no
block-comment closer, not a comment. -/
def stopsScan (s : String) : Bool :=
  !(s == "") && !strContains s "*/" && !strStartsWith s "//"

theorem chStarts_append_left (p q s : List Char)
    (h : chStarts (p ++ q) s = true) : chStarts p s = true := by
  induction p generalizing s with
  | nil => rfl
  | cons a t ih =>
    cases s with
    | nil => simp [chStarts] at h
    | cons b bs =>
      simp only [List.cons_append, chStarts] at h ⊢
      simp only [Bool.decide_and, Bool.and_eq_true, decide_eq_true_eq] at h ⊢
      exact ⟨h.1, ih bs h.2⟩

theorem marker_prefix_slashes (s : String) (h : strStartsWith s markerA = true) :
    strStartsWith s "//" = true := by
  unfold strStartsWith at h ⊢
  have hm : markerA.data = "//".data ++ "/ @custom:interface".data := by rfl
  rw [hm] at h
  exact chStarts_append_left _ _ _ h

theorem doc_prefix_slashes (s : String) (h : strStartsWith s "/// " = true) :
    strStartsWith s "//" = true := by
  unfold strStartsWith at h ⊢
  have hm : ("/// " : String).data = ("//" : String).data ++ ("/ " : String).data := by rfl
  rw [hm] at h
  exact chStarts_append_left _ _ _ h

theorem isDirectiveLine_not_doc (s : String) (h : isDirectiveLine s = true) :
    isDocLine s = false := by
  unfold isDirectiveLine at h
  unfold isDocLine
  simp [h]

/-- The scan, arriving at a stopper line, returns its accumulator. -/
theorem extractLoop_stop (lines : List String) (j : Nat) (acc : List String)
    (h : stopsScan (jsTrim (lineAt lines j)) = true) :
    extractNatspecLoop markerA lines (j + 1) false acc = acc := by
  simp only [stopsScan, Bool.and_eq_true, Bool.not_eq_true', beq_eq_false_iff_ne] at h
  obtain ⟨⟨h1, h2⟩, h3⟩ := h
  have hm : strStartsWith (jsTrim (lineAt lines j)) markerA = false := by
    cases hx : strStartsWith (jsTrim (lineAt lines j)) markerA
    · rfl
    · rw [marker_prefix_slashes _ hx] at h3; cases h3
  have hdoc : strStartsWith (jsTrim (lineAt lines j)) "/// " = false := by
    cases hx : strStartsWith (jsTrim (lineAt lines j)) "/// "
    · rfl
    · rw [doc_prefix_slashes _ hx] at h3; cases h3
  unfold extractNatspecLoop
  repeat' split
  all_goals simp_all

/-- The scan over a run of doc/directive lines collects exactly the doc
lines, trimmed, in source order, in front of the accumulator.  `hstop`
says the scan below the run returns its accumulator unchanged. -/
theorem extractLoop_docs (lines : List String) (base : Nat) (docs : List String)
    (hget : ∀ i, i < docs.length → lineAt lines (base + i) = docs.getD i "")
    (hdocs : ∀ d ∈ docs, isDocLine (jsTrim d) = true ∨ isDirectiveLine (jsTrim d) = true)
    (hstop : ∀ acc', extractNatspecLoop markerA lines base false acc' = acc') :
    ∀ acc, extractNatspecLoop markerA lines (base + docs.length) false acc
      = ((docs.filter (fun d => isDocLine (jsTrim d))).map jsTrim) ++ acc := by
  induction docs using List.reverseRecOn with
  | nil => intro acc; simpa using hstop acc
  | append_singleton ds d ih =>
    intro acc
    have hlen : base + (ds ++ [d]).length = (base + ds.length) + 1 := by
      simp [List.length_append]
      omega
    rw [hlen]
    have hline : lineAt lines (base + ds.length) = d := by
      have hx := hget ds.length (by simp)
      rw [hx]
      rw [List.getD_append_right ds [d] "" ds.length (Nat.le_refl ds.length)]
      simp
    have hget' : ∀ i, i < ds.length → lineAt lines (base + i) = ds.getD i "" := by
      intro i hi
      have hx := hget i (by simp; omega)
      rw [hx]
      exact List.getD_append ds [d] "" i hi
    have hdocs' : ∀ x ∈ ds, isDocLine (jsTrim x) = true ∨ isDirectiveLine (jsTrim x) = true :=
      fun x hx => hdocs x (by simp [hx])
    have ihh := ih hget' hdocs'
    rcases hdocs d (by simp) with hdl | hdir
    · -- a doc line: included, scan continues
      have h1 : strStartsWith (jsTrim d) "/// " = true := by
        simp only [isDocLine, Bool.and_eq_true] at hdl; exact hdl.1.1
      have h2 : strStartsWith (jsTrim d) markerA = false := by
        simp only [isDocLine, Bool.and_eq_true, Bool.not_eq_true'] at hdl; exact hdl.1.2
      have h3 : strContains (jsTrim d) "*/" = false := by
        simp only [isDocLine, Bool.and_eq_true, Bool.not_eq_true'] at hdl; exact hdl.2
      unfold extractNatspecLoop
      rw [hline]
      simp only [h1, h2, h3, if_false, if_true, Bool.false_eq_true, Bool.true_eq_false]
      rw [ihh (jsTrim d :: acc)]
      simp [List.filter_append, List.map_append, hdl]
    · -- a directive line: transparently skipped
      have h2 : strStartsWith (jsTrim d) markerA = true := hdir
      unfold extractNatspecLoop
      rw [hline]
      simp only [h2, if_true]
      rw [ihh acc]
      simp [List.filter_append, isDirectiveLine_not_doc _ hdir]

/-! ### Trim identity for joined doc blocks -/

theorem head_dropWhile_false (p : Char → Bool) (l : List Char) (c : Char)
    (h : (l.dropWhile p).head? = some c) : p c = false := by
  induction l with
  | nil => simp [List.dropWhile] at h
  | cons a t ih =>
    rw [List.dropWhile_cons] at h
    by_cases hp : p a
    · rw [if_pos hp] at h; exact ih h
    · rw [if_neg hp] at h
      simp at h
      rw [← h]
      simpa using hp

theorem chTrim_getLast_not_ws (l : List Char) (c : Char)
    (hc : (chTrim l).getLast? = some c) : isJsWs c = false := by
  unfold chTrim at hc
  rw [List.getLast?_reverse] at hc
  exact head_dropWhile_false _ _ _ hc

theorem chTrim_eq_self (l : List Char)
    (h1 : ∀ c, l.head? = some c → isJsWs c = false)
    (h2 : ∀ c, l.getLast? = some c → isJsWs c = false) : chTrim l = l := by
  unfold chTrim
  have hd : l.dropWhile isJsWs = l := by
    cases l with
    | nil => rfl
    | cons a t => rw [List.dropWhile_cons, if_neg (by simp [h1 a rfl])]
  rw [hd]
  have hr : l.reverse.dropWhile isJsWs = l.reverse := by
    cases hrev : l.reverse with
    | nil => rfl
    | cons a t =>
      rw [List.dropWhile_cons]
      have hla : l.getLast? = some a := by
        rw [← List.head?_reverse, hrev]; rfl
      rw [if_neg (by simp [h2 a hla])]
  rw [hr, List.reverse_reverse]

theorem strData_append (a b : String) : (a ++ b).data = a.data ++ b.data := rfl

theorem startsWith_doc_head (x : String) (h : strStartsWith x "/// " = true) :
    ∃ t, x.data = '/' :: t := by
  unfold strStartsWith at h
  cases hx : x.data with
  | nil =>
    rw [hx] at h
    simp [show ("/// " : String).data = ['/', '/', '/', ' '] from rfl, chStarts] at h
  | cons a t =>
    rw [hx] at h
    have ha : '/' = a := by
      simp only [show ("/// " : String).data = ['/', '/', '/', ' '] from rfl, chStarts] at h
      simp only [Bool.decide_and, Bool.and_eq_true, decide_eq_true_eq] at h
      exact h.1
    exact ⟨t, by rw [← ha]⟩

theorem strJoin_data_ne (y : String) (ys : List String) (h : y.data ≠ []) :
    (strJoin "\n" (y :: ys)).data ≠ [] := by
  cases ys with
  | nil => simpa [strJoin]
  | cons a as =>
    show (y ++ "\n" ++ strJoin "\n" (a :: as)).data ≠ []
    rw [strData_append, strData_append]
    simp [h]

theorem strJoin_getLast_not_ws (x : String) (xs : List String)
    (hl : ∀ z ∈ x :: xs, ∀ c, z.data.getLast? = some c → isJsWs c = false)
    (hne : ∀ z ∈ x :: xs, z.data ≠ []) :
    ∀ c, (strJoin "\n" (x :: xs)).data.getLast? = some c → isJsWs c = false := by
  induction xs generalizing x with
  | nil =>
    intro c hc
    exact hl x (by simp) c (by simpa [strJoin] using hc)
  | cons y ys ih =>
    intro c hc
    have hjoin : strJoin "\n" (x :: y :: ys) = x ++ "\n" ++ strJoin "\n" (y :: ys) := rfl
    have hrne : (strJoin "\n" (y :: ys)).data ≠ [] :=
      strJoin_data_ne y ys (hne y (by simp))
    have hlast : (strJoin "\n" (x :: y :: ys)).data.getLast?
        = (strJoin "\n" (y :: ys)).data.getLast? := by
      rw [hjoin, strData_append, strData_append]
      exact List.getLast?_append_of_ne_nil _ hrne
    rw [hlast] at hc
    exact ih y (fun z hz => hl z (by simp at hz ⊢; tauto))
      (fun z hz => hne z (by simp at hz ⊢; tauto)) c hc

/-- A joined block of lines that each start with `/// ` and carry no
trailing whitespace (they are `jsTrim` images) is a fixed point of
`jsTrim`. -/
theorem jsTrim_strJoin_docs (elems : List String)
    (hh : ∀ x ∈ elems, strStartsWith x "/// " = true)
    (hl : ∀ x ∈ elems, ∀ c, x.data.getLast? = some c → isJsWs c = false) :
    jsTrim (strJoin "\n" elems) = strJoin "\n" elems := by
  cases elems with
  | nil => rfl
  | cons x xs =>
    obtain ⟨t, hx⟩ := startsWith_doc_head x (hh x (by simp))
    have hhead : ∀ c, (strJoin "\n" (x :: xs)).data.head? = some c → isJsWs c = false := by
      intro c hc
      have : (strJoin "\n" (x :: xs)).data.head? = some '/' := by
        cases xs with
        | nil => simp [strJoin, hx]
        | cons y ys =>
          show (x ++ "\n" ++ strJoin "\n" (y :: ys)).data.head? = some '/'
          rw [strData_append, strData_append, hx]
          rfl
      rw [this] at hc
      cases hc
      decide
    have hlast := strJoin_getLast_not_ws x xs hl
      (by
        intro z hz
        obtain ⟨tz, htz⟩ := startsWith_doc_head z (hh z hz)
        simp [htz])
    show jsTrim (strJoin "\n" (x :: xs)) = strJoin "\n" (x :: xs)
    unfold jsTrim
    rw [chTrim_eq_self _ hhead hlast]

theorem getD_length_sub_one (l : List String) (h : l ≠ []) :
    l.getD (l.length - 1) "" = l.getLast?.getD "" := by
  induction l with
  | nil => exact absurd rfl h
  | cons a t ih =>
    cases t with
    | nil => rfl
    | cons b bs =>
      rw [List.getLast?_cons_cons, ← ih (by simp)]
      rfl

/-- The C6 concrete input: two doc lines with an interior directive line
directly above a function, the block delimited above by code. -/
def c6Input : String :=
  "/// @custom:interface build ./I.sol\ncontract C \x7b\n    /// @notice first\n    /// @custom:interface exclude nobody\n    /// @notice second\n    function foo() external \x7b\n    \x7d\n\x7d"

def c6Expected : String :=
  "// SPDX-License-Identifier: MIT\npragma solidity ^0.8.20;\n\ninterface IC \x7b\n\n    /// @notice first\n    /// @notice second\n    function foo() external;\n\x7d\n"

/-- **C6.**  (i) For a declaration preceded by a run of single-line doc
comments with directive-marker lines interspersed (no blank-line break),
delimited above by a scan-stopping code line (or the start of the file),
the associated doc block consists of exactly the doc lines of the run —
directive lines transparently skipped — trimmed and joined in original
source order.  (ii) `parseFunction` associates exactly this block
(`extractNatspecForLine` at the line after the function's 0-based index)
with the function.  (iii) On a concrete contract whose function carries
two doc lines with one interior directive line, the generated output
renders both doc lines, in order, immediately above the rendered
declaration. -/
theorem c6_doc_association :
    (∀ (pre docs rest : List String),
      (∀ d ∈ docs, isDocLine (jsTrim d) = true ∨ isDirectiveLine (jsTrim d) = true) →
      (pre = [] ∨ stopsScan (jsTrim (pre.getLast?.getD "")) = true) →
      extractNatspecForLine markerA (pre ++ docs ++ rest) (pre.length + docs.length + 1)
        = strJoin "\n" ((docs.filter (fun d => isDocLine (jsTrim d))).map jsTrim))
    ∧ (∀ (lines : List String) (i : Nat) (f : ParsedFunction),
        parseFunction markerA lines i = some f →
        f.natspec = extractNatspecForLine markerA lines (i + 1))
    ∧ generateInterfaceA (mkGenStateA c6Input) = .ok c6Expected := by
  refine ⟨?_, ?_, by rfl⟩
  · intro pre docs rest hdocs hpre
    have hstop : ∀ acc',
        extractNatspecLoop markerA (pre ++ docs ++ rest) pre.length false acc' = acc' := by
      rcases hpre with hnil | hlast
      · subst hnil; intro acc'; rfl
      · intro acc'
        have hne : pre ≠ [] := by
          intro hp
          rw [hp] at hlast
          exact absurd hlast (by decide)
        have hlen : pre.length = (pre.length - 1) + 1 := by
          cases pre with
          | nil => exact absurd rfl hne
          | cons a t => simp
        rw [hlen]
        apply extractLoop_stop
        have hline : lineAt (pre ++ docs ++ rest) (pre.length - 1)
            = pre.getLast?.getD "" := by
          unfold lineAt
          rw [List.append_assoc]
          rw [List.getD_append pre (docs ++ rest) "" _
            (Nat.sub_lt (List.length_pos.mpr hne) Nat.one_pos)]
          exact getD_length_sub_one pre hne
        rw [hline]
        exact hlast
    have hget : ∀ i, i < docs.length →
        lineAt (pre ++ docs ++ rest) (pre.length + i) = docs.getD i "" := by
      intro i hi
      unfold lineAt
      rw [List.append_assoc]
      rw [List.getD_append_right pre (docs ++ rest) "" _ (Nat.le_add_right _ _)]
      rw [Nat.add_sub_cancel_left]
      exact List.getD_append docs rest "" i hi
    have hloop := extractLoop_docs (pre ++ docs ++ rest) pre.length docs hget hdocs hstop []
    unfold extractNatspecForLine
    have hk : pre.length + docs.length + 1 - 1 = pre.length + docs.length := by omega
    rw [hk, hloop, List.append_nil]
    apply jsTrim_strJoin_docs
    · intro x hx
      obtain ⟨d, hd, hdx⟩ := List.mem_map.mp hx
      obtain ⟨-, hdoc⟩ := List.mem_filter.mp hd
      rw [← hdx]
      simp only [isDocLine, Bool.and_eq_true] at hdoc
      exact hdoc.1.1
    · intro x hx c hc
      obtain ⟨d, hd, hdx⟩ := List.mem_map.mp hx
      rw [← hdx] at hc
      exact chTrim_getLast_not_ws d.data c hc
  · intro lines i f hf
    unfold parseFunction at hf
    cases hs : searchFunc (aggregateFunc (lines.drop i) 0 false "").data with
    | none => simp only [hs] at hf; cases hf
    | some m =>
      simp only [hs, Option.some.injEq] at hf
      rw [← hf]

/-- Witness for `c6_doc_association`: the two-doc-line run with an
interior directive line above the function on (0-based) line 5 of
`c6Input` yields exactly the two doc lines. -/
theorem c6_doc_association_witness :
    extractNatspecForLine markerA
      (["/// @custom:interface build ./I.sol", "contract C \x7b"] ++
        ["    /// @notice first", "    /// @custom:interface exclude nobody",
          "    /// @notice second"] ++
        ["    function foo() external \x7b", "    \x7d", "\x7d"]) 6
      = "/// @notice first\n/// @notice second" := by
  have h : extractNatspecForLine markerA
      (["/// @custom:interface build ./I.sol", "contract C \x7b"] ++
        ["    /// @notice first", "    /// @custom:interface exclude nobody",
          "    /// @notice second"] ++
        ["    function foo() external \x7b", "    \x7d", "\x7d"]) 6
      = strJoin "\n"
          (((["    /// @notice first", "    /// @custom:interface exclude nobody",
              "    /// @notice second"]).filter
            (fun d => isDocLine (jsTrim d))).map jsTrim) :=
    c6_doc_association.1
      ["/// @custom:interface build ./I.sol", "contract C \x7b"]
      ["    /// @notice first", "    /// @custom:interface exclude nobody",
        "    /// @notice second"]
      ["    function foo() external \x7b", "    \x7d", "\x7d"]
      (by decide) (by decide)
  rw [h]
  decide

end HardhatBuild
